import Mathlib

/-!
Verification development for the entropy-tunnel repository.

This file shallowly embeds the Go packages `internal/tunnel` (configuration
model, xray-core JSON compiler, engine supervisor), `internal/api` (local
control HTTP surface), and `internal/rotation` (endpoint rotation controllers
and health monitor) as executable Lean definitions, and proves or refutes the
frozen claims about them.

Modelling conventions:
* Go pointers that may be nil become `Option`; fallible functions return
  `Except`.
* Go `[]byte` JSON documents are modelled structurally (`xrayFullConfig`) plus
  a rendering function `renderFull` that reproduces the exact byte output of
  `encoding/json.Marshal` on the Go structs (struct fields in declared order,
  map keys sorted, `omitempty` semantics, `Marshal`'s HTML-safe string
  escaping).
* Machine integers (`int` ports, fail counters) are modelled as `Int`.
* Time is modelled as natural-number seconds supplied explicitly.
* Concurrency is modelled by applying the effects of spawned goroutines as
  explicit state transformations; log-only error paths are modelled by
  ignoring the corresponding result value.
-/

namespace EntropyTunnel

/-! ## Characters and case folding (internal/tunnel/dpi_test.go `containsCI`) -/

/-- Byte-level lower-casing used by the repository's case-insensitive scan:
ASCII `A`-`Z` shifted by 32, all other characters unchanged. -/
def goLower (c : Char) : Char :=
  if 'A' ≤ c ∧ c ≤ 'Z' then Char.ofNat (c.toNat + 32) else c

/-- Lower-case an entire character list. -/
def lowerL (l : List Char) : List Char := l.map goLower

/-! ## Decimal rendering of numbers (Go `strconv`/`fmt` "%d") -/

/-- The decimal digit character for `n % 10`-style values below ten. -/
def digitChar (n : Nat) : Char :=
  if n = 0 then '0' else if n = 1 then '1' else if n = 2 then '2'
  else if n = 3 then '3' else if n = 4 then '4' else if n = 5 then '5'
  else if n = 6 then '6' else if n = 7 then '7' else if n = 8 then '8' else '9'

/-- Fuel-driven decimal digit expansion; `fuel ≥ number of digits` suffices. -/
def natDigitsAux : Nat → Nat → List Char
  | 0, _ => []
  | fuel + 1, n =>
    if n < 10 then [digitChar n]
    else natDigitsAux fuel (n / 10) ++ [digitChar (n % 10)]

/-- Decimal digits of a natural number, most significant first. -/
def natDigits (n : Nat) : List Char := natDigitsAux (n + 1) n

/-- Decimal rendering of a Go `int`. -/
def intChars (i : Int) : List Char :=
  if i < 0 then '-' :: natDigits i.natAbs else natDigits i.toNat

/-! ## Address parsing (internal/tunnel/config_builder.go helpers) -/

/-- Value of an all-digit, non-empty character list (else `none`); the digit
part of Go `strconv.Atoi`. -/
def digitsVal (l : List Char) : Option Nat :=
  if l = [] then none
  else if l.all Char.isDigit then
    some (l.foldl (fun a c => a * 10 + (c.toNat - 48)) 0)
  else none

/-- Go `strconv.Atoi`: optional sign followed by one or more digits. -/
def atoi (l : List Char) : Option Int :=
  match l with
  | [] => none
  | c :: rest =>
    if c = '+' then (digitsVal rest).map Int.ofNat
    else if c = '-' then (digitsVal rest).map (fun n => -(n : Int))
    else (digitsVal (c :: rest)).map Int.ofNat

/-- Split a character list at its LAST colon (Go `strings.LastIndex(addr, ":")`),
returning the part before and the part after; `none` when no colon occurs. -/
def splitAtLastColon : List Char → Option (List Char × List Char)
  | [] => none
  | c :: rest =>
    match splitAtLastColon rest with
    | some (h, p) => some (c :: h, p)
    | none => if c = ':' then some ([], rest) else none

/-- `splitHostPort` from config_builder.go: `":P"` becomes `("0.0.0.0", P)`;
`"host:P"` splits at the last colon; everything else is an error. -/
def splitHostPort (addr : String) : Except String (String × Int) :=
  match addr.data with
  | [] => .error "empty address"
  | c :: rest =>
    if c = ':' then
      match atoi rest with
      | some port => .ok ("0.0.0.0", port)
      | none => .error ("invalid port in " ++ addr)
    else
      match splitAtLastColon (c :: rest) with
      | none => .error ("no port in " ++ addr)
      | some (h, p) =>
        match atoi p with
        | some port => .ok (String.mk h, port)
        | none => .error ("invalid port in " ++ addr)

/-- `parseServerAddr` from config_builder.go: never fails; a missing colon or
unparseable port yields the whole address with default port 443. -/
def parseServerAddr (addr : String) : String × Int :=
  match splitAtLastColon addr.data with
  | none => (addr, 443)
  | some (h, p) =>
    match atoi p with
    | none => (addr, 443)
    | some port => (String.mk h, port)

/-- `coalesce` from config_builder.go, at its two-argument call sites. -/
def coalesce (a b : String) : String := if a ≠ "" then a else b

/-! ## Configuration model (internal/tunnel config types) -/

/-- `RealityConfig` from the tunnel package. -/
structure RealityConfig where
  sni : String
  privateKey : String
  publicKey : String
  shortIDs : List String
  deriving DecidableEq

/-- `FallbackConfig` from the tunnel package. -/
structure FallbackConfig where
  protocol : String
  listen : String
  transport : String
  path : String
  deriving DecidableEq

/-- `RotationConfig` from the tunnel package. -/
structure RotationConfig where
  enabled : Bool
  provider : String
  interval : String
  cfAPIToken : String
  cfAccountID : String
  cfZoneID : String
  awsRegion : String
  awsKey : String
  awsSecret : String
  deriving DecidableEq

/-- `PaymentConfig` from the tunnel package. -/
structure PaymentConfig where
  enabled : Bool
  btcPayURL : String
  btcPayKey : String
  storeID : String
  deriving DecidableEq

/-- Server-side `Config` from the tunnel package. -/
structure Config where
  listen : String
  protocol : String
  uuid : String
  reality : RealityConfig
  fingerprint : String
  fallbacks : List FallbackConfig
  logLevel : String
  sportsMode : Bool
  rotation : RotationConfig
  payment : PaymentConfig
  deriving DecidableEq

/-- `ClientConfig` from the tunnel package. -/
structure ClientConfig where
  server : String
  uuid : String
  sni : String
  fingerprint : String
  publicKey : String
  shortID : String
  localListen : String
  httpListen : String
  logLevel : String
  sportsMode : Bool
  apiListen : String
  deriving DecidableEq

/-- `Config.Validate`: required-field checks with in-place defaulting of
protocol and fingerprint; returns the (possibly defaulted) config. -/
def validateConfig (c : Config) : Except String Config :=
  if c.listen = "" then .error "listen address is required"
  else
    let protocol := if c.protocol = "" then "vless" else c.protocol
    if c.uuid = "" then .error "UUID is required"
    else if c.reality.sni = "" then .error "reality.sni is required"
    else if c.reality.privateKey = "" then .error "reality.private_key is required"
    else
      let fingerprint := if c.fingerprint = "" then "chrome" else c.fingerprint
      if protocol = "vless" ∨ protocol = "trojan" then
        .ok { c with protocol := protocol, fingerprint := fingerprint }
      else .error ("unsupported protocol: " ++ protocol)

/-- `ClientConfig.Validate`: required-field checks with defaulting of the
local listen address, fingerprint and API listen address. -/
def validateClientConfig (c : ClientConfig) : Except String ClientConfig :=
  if c.server = "" then .error "server address is required"
  else if c.uuid = "" then .error "UUID is required"
  else if c.sni = "" then .error "SNI is required"
  else if c.publicKey = "" then .error "public_key is required"
  else
    let localListen := if c.localListen = "" then "127.0.0.1:1080" else c.localListen
    let fingerprint := if c.fingerprint = "" then "chrome" else c.fingerprint
    let apiListen := if c.apiListen = "" then "127.0.0.1:9876" else c.apiListen
    .ok { c with localListen := localListen, fingerprint := fingerprint,
                 apiListen := apiListen }

/-! ## Xray-core compatible JSON structures (config_builder.go) -/

/-- The error taxonomy of the config compiler: `InvalidInput` for nil input,
`BadAddress` for an unparseable address. -/
inductive BuildErr where
  | invalidInput (msg : String)
  | badAddress (msg : String)
  deriving DecidableEq

/-- The contents of the precomputed `json.RawMessage` settings objects that
config_builder.go marshals from Go maps. -/
inductive XraySettings where
  /-- server VLESS inbound: clients list with one id plus vision flow. -/
  | vlessServer (uuid : String)
  /-- empty object settings of fallback inbounds. -/
  | emptyObj
  /-- client SOCKS inbound settings. -/
  | socks
  /-- client HTTP inbound settings. -/
  | http
  /-- client VLESS outbound vnext settings. -/
  | vlessClient (address : String) (port : Int) (uuid : String)
  deriving DecidableEq

/-- `xrayRealityStream`; the Lean field `showFlag` models the Go field `Show`
(`show` is a Lean keyword). -/
structure xrayRealityStream where
  showFlag : Bool
  dest : String
  xver : Int
  serverNames : List String
  privateKey : String
  shortIds : List String
  serverName : String
  fingerprint : String
  publicKey : String
  shortId : String
  deriving DecidableEq

/-- `xrayTLSStream`. -/
structure xrayTLSStream where
  serverName : String
  deriving DecidableEq

/-- `xrayWSStream`. -/
structure xrayWSStream where
  path : String
  deriving DecidableEq

/-- `xrayStream`. -/
structure xrayStream where
  network : String
  security : String
  reality : Option xrayRealityStream
  tls : Option xrayTLSStream
  ws : Option xrayWSStream
  deriving DecidableEq

/-- `xrayInbound`. -/
structure xrayInbound where
  tag : String
  listen : String
  port : Int
  protocol : String
  settings : XraySettings
  stream : Option xrayStream
  deriving DecidableEq

/-- `xrayOutbound`. -/
structure xrayOutbound where
  tag : String
  protocol : String
  settings : Option XraySettings
  stream : Option xrayStream
  deriving DecidableEq

/-- `xrayLog`. -/
structure xrayLog where
  loglevel : String
  deriving DecidableEq

/-- `xrayFullConfig`. -/
structure xrayFullConfig where
  log : Option xrayLog
  inbounds : List xrayInbound
  outbounds : List xrayOutbound
  deriving DecidableEq

/-! ## The two config builders (config_builder.go) -/

/-- The fallback-inbound loop of `BuildServerJSON`, carrying the loop index. -/
def buildFallbacks : Nat → List FallbackConfig → Except BuildErr (List xrayInbound)
  | _, [] => .ok []
  | i, fb :: rest =>
    match splitHostPort fb.listen with
    | .error e => .error (.badAddress ("invalid fallback listen address: " ++ e))
    | .ok (fbHost, fbPort) =>
      let inbound : xrayInbound :=
        { tag := "fallback-" ++ fb.protocol ++ "-" ++ String.mk (natDigits i)
          listen := fbHost
          port := fbPort
          protocol := fb.protocol
          settings := .emptyObj
          stream :=
            if fb.transport = "ws" then
              some { network := "ws", security := "tls", reality := none,
                     tls := none, ws := some { path := fb.path } }
            else none }
      match buildFallbacks (i + 1) rest with
      | .error e => .error e
      | .ok tail => .ok (inbound :: tail)

/-- `BuildServerJSON`: nil check, primary reality inbound, two fixed
outbounds, then one inbound per fallback. -/
def BuildServerJSON (cfg? : Option Config) : Except BuildErr xrayFullConfig :=
  match cfg? with
  | none => .error (.invalidInput "config is nil")
  | some cfg =>
    match splitHostPort cfg.listen with
    | .error e => .error (.badAddress ("invalid listen address: " ++ e))
    | .ok (host, port) =>
      let shortIDs := if cfg.reality.shortIDs = [] then [""] else cfg.reality.shortIDs
      let primary : xrayInbound :=
        { tag := "vless-reality"
          listen := host
          port := port
          protocol := "vless"
          settings := .vlessServer cfg.uuid
          stream := some
            { network := "tcp", security := "reality"
              reality := some
                { showFlag := false
                  dest := cfg.reality.sni ++ ":443"
                  xver := 0
                  serverNames := [cfg.reality.sni]
                  privateKey := cfg.reality.privateKey
                  shortIds := shortIDs
                  serverName := "", fingerprint := "", publicKey := "", shortId := "" }
              tls := none, ws := none } }
      match buildFallbacks 0 cfg.fallbacks with
      | .error e => .error e
      | .ok fbs =>
        .ok { log := some { loglevel := coalesce cfg.logLevel "info" }
              inbounds := primary :: fbs
              outbounds :=
                [ { tag := "direct", protocol := "freedom", settings := none, stream := none }
                , { tag := "block", protocol := "blackhole", settings := none, stream := none } ] }

/-- `BuildClientJSON`: nil check, SOCKS inbound (plus HTTP inbound when
`HTTPListen` is non-empty AND parseable), VLESS reality outbound then a
direct outbound; the remote address goes through the total `parseServerAddr`. -/
def BuildClientJSON (cfg? : Option ClientConfig) : Except BuildErr xrayFullConfig :=
  match cfg? with
  | none => .error (.invalidInput "client config is nil")
  | some cfg =>
    match splitHostPort cfg.localListen with
    | .error e => .error (.badAddress ("invalid local_listen: " ++ e))
    | .ok (localHost, localPort) =>
      let (serverHost, serverPort) := parseServerAddr cfg.server
      let fingerprint := if cfg.fingerprint = "" then "chrome" else cfg.fingerprint
      let socksIn : xrayInbound :=
        { tag := "socks-in", listen := localHost, port := localPort,
          protocol := "socks", settings := .socks, stream := none }
      let proxyOut : xrayOutbound :=
        { tag := "proxy"
          protocol := "vless"
          settings := some (.vlessClient serverHost serverPort cfg.uuid)
          stream := some
            { network := "tcp", security := "reality"
              reality := some
                { showFlag := false, dest := "", xver := 0, serverNames := [],
                  privateKey := "", shortIds := [],
                  serverName := cfg.sni, fingerprint := fingerprint,
                  publicKey := cfg.publicKey, shortId := cfg.shortID }
              tls := none, ws := none } }
      let directOut : xrayOutbound :=
        { tag := "direct", protocol := "freedom", settings := none, stream := none }
      let inbounds :=
        if cfg.httpListen ≠ "" then
          match splitHostPort cfg.httpListen with
          | .ok (hHost, hPort) =>
            [socksIn,
             { tag := "http-in", listen := hHost, port := hPort,
               protocol := "http", settings := .http, stream := none }]
          | .error _ => [socksIn]
        else [socksIn]
      .ok { log := some { loglevel := coalesce cfg.logLevel "info" }
            inbounds := inbounds
            outbounds := [proxyOut, directOut] }

/-! ## Structural facts about the builders -/

/-- Whether an `Except` computation succeeded. -/
def exOk {ε α : Type} : Except ε α → Bool
  | .ok _ => true
  | .error _ => false

theorem exOk_buildFallbacks (i : Nat) (fbs : List FallbackConfig) :
    exOk (buildFallbacks i fbs) = fbs.all (fun fb => exOk (splitHostPort fb.listen)) := by
  induction fbs generalizing i with
  | nil => rfl
  | cons fb rest ih =>
    have h3 := ih (i + 1)
    simp only [buildFallbacks, List.all_cons]
    cases h : splitHostPort fb.listen with
    | error e => simp [exOk]
    | ok hp =>
      cases h2 : buildFallbacks (i + 1) rest with
      | error e =>
        rw [h2] at h3
        simp only [exOk] at h3 ⊢
        simp [← h3]
      | ok l =>
        rw [h2] at h3
        simp only [exOk] at h3 ⊢
        simp [← h3]

theorem buildFallbacks_map_protocol (i : Nat) (fbs : List FallbackConfig)
    (l : List xrayInbound) (h : buildFallbacks i fbs = .ok l) :
    l.map (fun ib => ib.protocol) = fbs.map (fun fb => fb.protocol) := by
  induction fbs generalizing i l with
  | nil =>
    simp only [buildFallbacks] at h
    cases h
    rfl
  | cons fb rest ih =>
    simp only [buildFallbacks] at h
    cases hs : splitHostPort fb.listen with
    | error e => rw [hs] at h; cases h
    | ok hp =>
      rw [hs] at h
      cases h2 : buildFallbacks (i + 1) rest with
      | error e => rw [h2] at h; cases h
      | ok tail =>
        rw [h2] at h
        cases h
        simp [ih (i + 1) tail h2]

theorem buildFallbacks_length (i : Nat) (fbs : List FallbackConfig)
    (l : List xrayInbound) (h : buildFallbacks i fbs = .ok l) :
    l.length = fbs.length := by
  have := buildFallbacks_map_protocol i fbs l h
  have h1 : (l.map (fun ib => ib.protocol)).length = l.length := l.length_map _
  have h2 : (fbs.map (fun fb => fb.protocol)).length = fbs.length := fbs.length_map _
  rw [this] at h1
  omega

theorem buildFallbacks_tags (i : Nat) (fbs : List FallbackConfig)
    (l : List xrayInbound) (h : buildFallbacks i fbs = .ok l) :
    ∀ j fb, fbs[j]? = some fb →
      l[j]?.map (fun ib => (ib.protocol, ib.tag)) =
        some (fb.protocol,
          "fallback-" ++ fb.protocol ++ "-" ++ String.mk (natDigits (i + j))) := by
  induction fbs generalizing i l with
  | nil => intro j fb hj; simp at hj
  | cons fb0 rest ih =>
    simp only [buildFallbacks] at h
    cases hs : splitHostPort fb0.listen with
    | error e => rw [hs] at h; cases h
    | ok hp =>
      rw [hs] at h
      cases h2 : buildFallbacks (i + 1) rest with
      | error e => rw [h2] at h; cases h
      | ok tail =>
        rw [h2] at h
        cases h
        intro j fb hj
        cases j with
        | zero =>
          simp only [List.getElem?_cons_zero, Option.some.injEq] at hj
          subst hj
          simp
        | succ j =>
          simp only [List.getElem?_cons_succ] at hj ⊢
          have harith : i + 1 + j = i + (j + 1) := by omega
          have := ih (i + 1) tail h2 j fb hj
          rw [harith] at this
          exact this

theorem buildFallbacks_err_badAddress (i : Nat) (fbs : List FallbackConfig)
    (e : BuildErr) (h : buildFallbacks i fbs = .error e) : ∃ m, e = .badAddress m := by
  induction fbs generalizing i e with
  | nil => simp only [buildFallbacks] at h; cases h
  | cons fb rest ih =>
    simp only [buildFallbacks] at h
    cases hs2 : splitHostPort fb.listen with
    | error m => rw [hs2] at h; cases h; exact ⟨_, rfl⟩
    | ok hp2 =>
      rw [hs2] at h
      cases h4 : buildFallbacks (i + 1) rest with
      | error e3 => rw [h4] at h; cases h; exact ih (i + 1) _ h4
      | ok tail => rw [h4] at h; cases h

theorem buildServer_err_badAddress (cfg : Config) (e : BuildErr)
    (h : BuildServerJSON (some cfg) = .error e) : ∃ m, e = .badAddress m := by
  simp only [BuildServerJSON] at h
  cases hs : splitHostPort cfg.listen with
  | error m => rw [hs] at h; cases h; exact ⟨_, rfl⟩
  | ok hp =>
    obtain ⟨host, port⟩ := hp
    rw [hs] at h
    cases h2 : buildFallbacks 0 cfg.fallbacks with
    | error e2 =>
      rw [h2] at h
      cases h
      exact buildFallbacks_err_badAddress 0 cfg.fallbacks _ h2
    | ok fbs => rw [h2] at h; cases h

theorem buildClient_err_badAddress (cfg : ClientConfig) (e : BuildErr)
    (h : BuildClientJSON (some cfg) = .error e) : ∃ m, e = .badAddress m := by
  simp only [BuildClientJSON] at h
  cases hs : splitHostPort cfg.localListen with
  | error m => rw [hs] at h; cases h; exact ⟨_, rfl⟩
  | ok hp =>
    obtain ⟨lh, lp⟩ := hp
    rw [hs] at h
    exact Except.noConfusion h

instance {ε α : Type} [DecidableEq ε] [DecidableEq α] : DecidableEq (Except ε α) :=
  fun a b =>
    match a, b with
    | .ok x, .ok y =>
      if h : x = y then isTrue (by rw [h]) else
        isFalse (by intro he; cases he; exact h rfl)
    | .ok _, .error _ => isFalse (by intro he; cases he)
    | .error _, .ok _ => isFalse (by intro he; cases he)
    | .error x, .error y =>
      if h : x = y then isTrue (by rw [h]) else
        isFalse (by intro he; cases he; exact h rfl)

/-- Zero value of `RotationConfig` (Go zero struct). -/
def rotationZero : RotationConfig :=
  { enabled := false, provider := "", interval := "", cfAPIToken := "",
    cfAccountID := "", cfZoneID := "", awsRegion := "", awsKey := "", awsSecret := "" }

/-- Zero value of `PaymentConfig` (Go zero struct). -/
def paymentZero : PaymentConfig :=
  { enabled := false, btcPayURL := "", btcPayKey := "", storeID := "" }

/-! ## Claim C1: server compilation shape -/

/-- A server config that passes `Validate` (listen is non-empty) although its
listen address has no port, so `BuildServerJSON` rejects it. -/
def cfgC1bad : Config :=
  { listen := "badlisten", protocol := "", uuid := "u",
    reality := { sni := "g.com", privateKey := "k", publicKey := "", shortIDs := [] },
    fingerprint := "", fallbacks := [], logLevel := "", sportsMode := false,
    rotation := rotationZero, payment := paymentZero }

/-- C1 counterexample: `cfgC1bad` is accepted by `Config.Validate`, yet
`BuildServerJSON` fails on the validated config — so compilation does NOT
succeed for every validated `ServerConfig`. -/
theorem C1_validated_config_can_fail_to_compile :
    exOk (validateConfig cfgC1bad) = true ∧
    (validateConfig cfgC1bad).toOption.map
      (fun c => exOk (BuildServerJSON (some c))) = some false := by
  decide

/-- C1 (amended): for every validated `ServerConfig` whose listen address and
fallback listen addresses parse, `BuildServerJSON` succeeds, and the result
has exactly `len(Fallbacks)+1` inbounds (the primary `vless-reality` inbound
first, then one inbound per fallback in order, tagged
`fallback-{protocol}-{i}`) and exactly two outbounds, in order the `freedom`
outbound tagged `direct` then the `blackhole` outbound tagged `block`. -/
theorem C1_server_compile_counts (cfg0 cfg : Config)
    (hv : validateConfig cfg0 = .ok cfg)
    (hl : exOk (splitHostPort cfg.listen) = true)
    (hf : cfg.fallbacks.all (fun fb => exOk (splitHostPort fb.listen)) = true) :
    exOk (BuildServerJSON (some cfg)) = true ∧
    ∀ conf, BuildServerJSON (some cfg) = .ok conf →
      conf.inbounds.length = cfg.fallbacks.length + 1 ∧
      conf.inbounds.map (fun ib => ib.protocol) =
        "vless" :: cfg.fallbacks.map (fun fb => fb.protocol) ∧
      conf.inbounds.head?.map (fun ib => ib.tag) = some "vless-reality" ∧
      (∀ j fb, cfg.fallbacks[j]? = some fb →
        conf.inbounds[j + 1]?.map (fun ib => (ib.protocol, ib.tag)) =
          some (fb.protocol,
            "fallback-" ++ fb.protocol ++ "-" ++ String.mk (natDigits j))) ∧
      conf.outbounds =
        [ { tag := "direct", protocol := "freedom", settings := none, stream := none }
        , { tag := "block", protocol := "blackhole", settings := none, stream := none } ] := by
  clear hv
  cases hs : splitHostPort cfg.listen with
  | error e => rw [hs] at hl; simp [exOk] at hl
  | ok hp =>
    obtain ⟨host, port⟩ := hp
    have hbf : exOk (buildFallbacks 0 cfg.fallbacks) = true := by
      rw [exOk_buildFallbacks]; exact hf
    cases h2 : buildFallbacks 0 cfg.fallbacks with
    | error e => rw [h2] at hbf; simp [exOk] at hbf
    | ok fbs =>
      constructor
      · simp [BuildServerJSON, hs, h2, exOk]
      · intro conf hc
        simp only [BuildServerJSON, hs, h2] at hc
        cases hc
        refine ⟨?_, ?_, ?_, ?_, ?_⟩
        · simp [buildFallbacks_length 0 cfg.fallbacks fbs h2]
        · simp [buildFallbacks_map_protocol 0 cfg.fallbacks fbs h2]
        · rfl
        · intro j fb hj
          simp only [List.getElem?_cons_succ]
          have := buildFallbacks_tags 0 cfg.fallbacks fbs h2 j fb hj
          simpa using this
        · rfl

/-- A fully defaulted valid server config with one websocket fallback. -/
def cfgC1good : Config :=
  { listen := ":443", protocol := "vless", uuid := "u",
    reality := { sni := "g.com", privateKey := "k", publicKey := "",
                 shortIDs := ["deadbeef"] },
    fingerprint := "chrome",
    fallbacks := [{ protocol := "trojan", listen := ":8443", transport := "ws",
                    path := "/ws" }],
    logLevel := "", sportsMode := false,
    rotation := rotationZero, payment := paymentZero }

/-- Witness for C1 at `cfgC1good`. -/
theorem C1_server_compile_counts_witness :
    exOk (BuildServerJSON (some cfgC1good)) = true ∧
    ∀ conf, BuildServerJSON (some cfgC1good) = .ok conf →
      conf.inbounds.length = cfgC1good.fallbacks.length + 1 ∧
      conf.inbounds.map (fun ib => ib.protocol) =
        "vless" :: cfgC1good.fallbacks.map (fun fb => fb.protocol) ∧
      conf.inbounds.head?.map (fun ib => ib.tag) = some "vless-reality" ∧
      (∀ j fb, cfgC1good.fallbacks[j]? = some fb →
        conf.inbounds[j + 1]?.map (fun ib => (ib.protocol, ib.tag)) =
          some (fb.protocol,
            "fallback-" ++ fb.protocol ++ "-" ++ String.mk (natDigits j))) ∧
      conf.outbounds =
        [ { tag := "direct", protocol := "freedom", settings := none, stream := none }
        , { tag := "block", protocol := "blackhole", settings := none, stream := none } ] :=
  C1_server_compile_counts cfgC1good cfgC1good (by decide) (by decide) (by decide)

/-! ## Claim C3: client inbound/outbound counts -/

/-- Tags of the inbounds and (tag, protocol) of the outbounds produced by a
successful `BuildClientJSON`. -/
theorem buildClient_shape (cfg : ClientConfig) (conf : xrayFullConfig)
    (h : BuildClientJSON (some cfg) = .ok conf) :
    conf.inbounds.map (fun ib => ib.tag) =
      (if cfg.httpListen ≠ "" ∧ exOk (splitHostPort cfg.httpListen) = true
       then ["socks-in", "http-in"] else ["socks-in"]) ∧
    conf.outbounds.map (fun o => (o.tag, o.protocol)) =
      [("proxy", "vless"), ("direct", "freedom")] := by
  simp only [BuildClientJSON] at h
  cases hs : splitHostPort cfg.localListen with
  | error e => rw [hs] at h; cases h
  | ok hp =>
    obtain ⟨lh, lp⟩ := hp
    simp only [hs] at h
    by_cases hne : cfg.httpListen ≠ ""
    · cases hh : splitHostPort cfg.httpListen with
      | error m =>
        simp only [if_pos hne, hh] at h
        injection h with h
        subst h
        simp [hne, hh, exOk]
      | ok q =>
        obtain ⟨qh, qp⟩ := q
        simp only [if_pos hne, hh] at h
        injection h with h
        subst h
        simp [hne, hh, exOk]
    · simp only [if_neg hne] at h
      injection h with h
      subst h
      simp at hne
      simp [hne, exOk]

/-- A validated client config with `HTTPListen` present but unparseable. -/
def cfgC3bad : ClientConfig :=
  { server := "1.2.3.4:443", uuid := "u", sni := "g.com", fingerprint := "",
    publicKey := "pk", shortID := "", localListen := "127.0.0.1:1080",
    httpListen := "bad", logLevel := "", sportsMode := false, apiListen := "" }

/-- A valid client config with a parseable `HTTPListen`. -/
def cfgC3good : ClientConfig :=
  { server := "1.2.3.4:443", uuid := "u", sni := "g.com", fingerprint := "chrome",
    publicKey := "pk", shortID := "abcd", localListen := "127.0.0.1:1080",
    httpListen := "127.0.0.1:8080", logLevel := "", sportsMode := false,
    apiListen := "127.0.0.1:9876" }

/-- C3 counterexample: a validated `ClientConfig` whose `HTTPListen` is
present (`"bad"`) but unparseable compiles to exactly ONE inbound, not two. -/
theorem C3_present_http_listen_one_inbound :
    exOk (validateClientConfig cfgC3bad) = true ∧
    (validateClientConfig cfgC3bad).toOption.map (fun c => c.httpListen) =
      some "bad" ∧
    ((validateClientConfig cfgC3bad).toOption.bind
        (fun c => (BuildClientJSON (some c)).toOption)).map
      (fun conf => conf.inbounds.length) = some 1 := by
  decide

/-- C3 (amended): for every validated `ClientConfig` whose local listen
address parses, `BuildClientJSON` succeeds with exactly 2 inbounds
(`socks-in` then `http-in`) when `HTTPListen` is present AND parseable, and
exactly 1 inbound otherwise, and in every case exactly 2 outbounds: the
`vless` outbound tagged `proxy` first, then the `freedom` outbound tagged
`direct`. -/
theorem C3_client_compile_counts (cfg0 cfg : ClientConfig)
    (hv : validateClientConfig cfg0 = .ok cfg)
    (hl : exOk (splitHostPort cfg.localListen) = true) :
    exOk (BuildClientJSON (some cfg)) = true ∧
    ∀ conf, BuildClientJSON (some cfg) = .ok conf →
      conf.inbounds.map (fun ib => ib.tag) =
        (if cfg.httpListen ≠ "" ∧ exOk (splitHostPort cfg.httpListen) = true
         then ["socks-in", "http-in"] else ["socks-in"]) ∧
      conf.inbounds.length =
        (if cfg.httpListen ≠ "" ∧ exOk (splitHostPort cfg.httpListen) = true
         then 2 else 1) ∧
      conf.outbounds.map (fun o => (o.tag, o.protocol)) =
        [("proxy", "vless"), ("direct", "freedom")] := by
  clear hv
  cases hs : splitHostPort cfg.localListen with
  | error e => rw [hs] at hl; simp [exOk] at hl
  | ok hp =>
    obtain ⟨lh, lp⟩ := hp
    constructor
    · simp only [BuildClientJSON, hs]
      rfl
    · intro conf hc
      obtain ⟨htags, houts⟩ := buildClient_shape cfg conf hc
      refine ⟨htags, ?_, houts⟩
      have hlen : (conf.inbounds.map (fun ib => ib.tag)).length =
          conf.inbounds.length := conf.inbounds.length_map _
      rw [htags] at hlen
      by_cases hcond : cfg.httpListen ≠ "" ∧ exOk (splitHostPort cfg.httpListen) = true
      · rw [if_pos hcond] at hlen
        rw [if_pos hcond]
        simpa using hlen.symm
      · rw [if_neg hcond] at hlen
        rw [if_neg hcond]
        simpa using hlen.symm

/-- Witness for C3 at `cfgC3good`. -/
theorem C3_client_compile_counts_witness :
    exOk (BuildClientJSON (some cfgC3good)) = true ∧
    ∀ conf, BuildClientJSON (some cfgC3good) = .ok conf →
      conf.inbounds.map (fun ib => ib.tag) =
        (if cfgC3good.httpListen ≠ "" ∧
            exOk (splitHostPort cfgC3good.httpListen) = true
         then ["socks-in", "http-in"] else ["socks-in"]) ∧
      conf.inbounds.length =
        (if cfgC3good.httpListen ≠ "" ∧
            exOk (splitHostPort cfgC3good.httpListen) = true
         then 2 else 1) ∧
      conf.outbounds.map (fun o => (o.tag, o.protocol)) =
        [("proxy", "vless"), ("direct", "freedom")] :=
  C3_client_compile_counts cfgC3good cfgC3good (by decide) (by decide)

/-! ## Claim C9: compiler error conditions -/

/-- A client config whose remote server address has an unparseable port and
whose `HTTPListen` is unparseable. -/
def cfgC9 : ClientConfig :=
  { server := "h:x", uuid := "u", sni := "s", fingerprint := "",
    publicKey := "pk", shortID := "", localListen := "127.0.0.1:1080",
    httpListen := "bad", logLevel := "", sportsMode := false, apiListen := "" }

/-- C9 counterexample: both the remote server address and `HTTPListen` of
`cfgC9` are unparseable, yet `BuildClientJSON` succeeds instead of failing
with `BadAddress`. -/
theorem C9_unparseable_addresses_do_not_fail :
    splitHostPort cfgC9.server = .error "invalid port in h:x" ∧
    splitHostPort cfgC9.httpListen = .error "no port in bad" ∧
    exOk (BuildClientJSON (some cfgC9)) = true := by
  decide

/-- C9 (amended): both builders return `InvalidInput` for nil input; every
builder failure is a `BadAddress` error; `BuildServerJSON` fails exactly when
the listen address or some fallback listen address is unparseable; and
`BuildClientJSON` fails exactly when `LocalListen` is unparseable — an
unparseable remote server address or `HTTPListen` never fails the build. -/
theorem C9_compiler_error_conditions :
    BuildServerJSON none = .error (.invalidInput "config is nil") ∧
    BuildClientJSON none = .error (.invalidInput "client config is nil") ∧
    (∀ cfg : Config, exOk (BuildServerJSON (some cfg)) =
      (exOk (splitHostPort cfg.listen) &&
        cfg.fallbacks.all (fun fb => exOk (splitHostPort fb.listen)))) ∧
    (∀ cfg : ClientConfig, exOk (BuildClientJSON (some cfg)) =
      exOk (splitHostPort cfg.localListen)) ∧
    (∀ cfg e, BuildServerJSON (some cfg) = .error e → ∃ m, e = .badAddress m) ∧
    (∀ cfg e, BuildClientJSON (some cfg) = .error e → ∃ m, e = .badAddress m) := by
  refine ⟨rfl, rfl, ?_, ?_, buildServer_err_badAddress, buildClient_err_badAddress⟩
  · intro cfg
    cases hs : splitHostPort cfg.listen with
    | error e => simp [BuildServerJSON, hs, exOk]
    | ok hp =>
      obtain ⟨host, port⟩ := hp
      cases h2 : buildFallbacks 0 cfg.fallbacks with
      | error e =>
        have := exOk_buildFallbacks 0 cfg.fallbacks
        rw [h2] at this
        simp only [exOk] at this
        simp [BuildServerJSON, hs, h2, exOk, ← this]
      | ok fbs =>
        have := exOk_buildFallbacks 0 cfg.fallbacks
        rw [h2] at this
        simp only [exOk] at this
        simp [BuildServerJSON, hs, h2, exOk, ← this]
  · intro cfg
    cases hs : splitHostPort cfg.localListen with
    | error e => simp [BuildClientJSON, hs, exOk]
    | ok hp =>
      obtain ⟨lh, lp⟩ := hp
      simp only [BuildClientJSON, hs]
      rfl

/-- Witness for C9's universally quantified clauses at `cfgC9`. -/
theorem C9_compiler_error_conditions_witness :
    exOk (BuildClientJSON (some cfgC9)) = exOk (splitHostPort cfgC9.localListen) :=
  C9_compiler_error_conditions.2.2.2.1 cfgC9

/-! ## Byte-level rendering of the compiled document

These functions reproduce, character by character, the output of Go
`encoding/json.Marshal` on the `xray*` structs of config_builder.go: struct
fields appear in declared order, the precomputed `json.RawMessage` settings
objects (marshalled from Go maps) have their keys in sorted order, `omitempty`
fields are dropped at their zero value, arrays are compact, and string values
are escaped exactly as `Marshal`'s default HTML-safe encoder escapes them
(quote, backslash, `<`, `>`, `&`, control characters, U+2028/U+2029). -/

/-- Lower-case hexadecimal digit, as used by Go's `\u00xx` escapes. -/
def hexDigit (n : Nat) : Char :=
  if n < 10 then digitChar n else Char.ofNat (97 + (n - 10))

/-- Go `encoding/json` escaping of one rune: the default (HTML-safe) encoder
emits `\"`, `\\`, `\n`, `\r`, `\t`, escapes `<`, `>`, `&`, the remaining
control characters below 0x20 as `\u00xx`, and the separators U+2028 and
U+2029 as six-character `\uXXXX` escapes; every other rune passes through
unchanged. -/
def escapeChar (c : Char) : List Char :=
  if c = '"' then ['\\', '"']
  else if c = '\\' then ['\\', '\\']
  else if c = '<' then ['\\', 'u', '0', '0', '3', 'c']
  else if c = '>' then ['\\', 'u', '0', '0', '3', 'e']
  else if c = '&' then ['\\', 'u', '0', '0', '2', '6']
  else if c = '\n' then ['\\', 'n']
  else if c = '\r' then ['\\', 'r']
  else if c = '\t' then ['\\', 't']
  else if c.toNat < 0x20 then
    ['\\', 'u', '0', '0', hexDigit (c.toNat / 16), hexDigit (c.toNat % 16)]
  else if c = '\u2028' then ['\\', 'u', '2', '0', '2', '8']
  else if c = '\u2029' then ['\\', 'u', '2', '0', '2', '9']
  else [c]

/-- Go `encoding/json` escaping of a whole string body. -/
def escapeL : List Char → List Char
  | [] => []
  | c :: rest => escapeChar c ++ escapeL rest

/-- A JSON string literal around `s`, escaped as `Marshal` escapes it. -/
def jstr (s : String) : List Char := '"' :: escapeL s.data ++ ['"']

/-- JSON boolean. -/
def renderBool (b : Bool) : List Char := if b then "true".data else "false".data

/-- The settings objects exactly as marshalled from Go maps (sorted keys). -/
def renderSettings : XraySettings → List Char
  | .vlessServer uuid =>
    "\x7b\"clients\":[\x7b\"flow\":\"xtls-rprx-vision\",\"id\":".data ++ jstr uuid ++
      "\x7d],\"decryption\":\"none\"\x7d".data
  | .emptyObj => "\x7b\x7d".data
  | .socks => "\x7b\"udp\":true\x7d".data
  | .http => "\x7b\"allowTransparent\":false\x7d".data
  | .vlessClient addr port uuid =>
    "\x7b\"vnext\":[\x7b\"address\":".data ++ jstr addr ++
      ",\"port\":".data ++ intChars port ++
      ",\"users\":[\x7b\"encryption\":\"none\",\"flow\":\"xtls-rprx-vision\",\"id\":".data ++
      jstr uuid ++ "\x7d]\x7d]\x7d".data

/-- Comma-joined JSON string literals. -/
def joinJStrs : List String → List Char
  | [] => []
  | [s] => jstr s
  | s :: rest => jstr s ++ ',' :: joinJStrs rest

/-- A JSON array of strings. -/
def renderStrArray (l : List String) : List Char := '[' :: joinJStrs l ++ [']']

/-- `xrayRealityStream` (field `show` mandatory, all others `omitempty`). -/
def renderReality (r : xrayRealityStream) : List Char :=
  "\x7b\"show\":".data ++ renderBool r.showFlag ++
  (if r.dest = "" then [] else ",\"dest\":".data ++ jstr r.dest) ++
  (if r.xver = 0 then [] else ",\"xver\":".data ++ intChars r.xver) ++
  (if r.serverNames = [] then [] else
    ",\"serverNames\":".data ++ renderStrArray r.serverNames) ++
  (if r.privateKey = "" then [] else ",\"privateKey\":".data ++ jstr r.privateKey) ++
  (if r.shortIds = [] then [] else ",\"shortIds\":".data ++ renderStrArray r.shortIds) ++
  (if r.serverName = "" then [] else ",\"serverName\":".data ++ jstr r.serverName) ++
  (if r.fingerprint = "" then [] else ",\"fingerprint\":".data ++ jstr r.fingerprint) ++
  (if r.publicKey = "" then [] else ",\"publicKey\":".data ++ jstr r.publicKey) ++
  (if r.shortId = "" then [] else ",\"shortId\":".data ++ jstr r.shortId) ++
  ['\x7d']

/-- `xrayTLSStream` (single `omitempty` field). -/
def renderTLS (t : xrayTLSStream) : List Char :=
  if t.serverName = "" then "\x7b\x7d".data
  else "\x7b\"serverName\":".data ++ jstr t.serverName ++ ['\x7d']

/-- `xrayWSStream`. -/
def renderWS (w : xrayWSStream) : List Char :=
  "\x7b\"path\":".data ++ jstr w.path ++ ['\x7d']

/-- `xrayStream`. -/
def renderStream (st : xrayStream) : List Char :=
  "\x7b\"network\":".data ++ jstr st.network ++
  ",\"security\":".data ++ jstr st.security ++
  st.reality.elim [] (fun r => ",\"realitySettings\":".data ++ renderReality r) ++
  st.tls.elim [] (fun t => ",\"tlsSettings\":".data ++ renderTLS t) ++
  st.ws.elim [] (fun w => ",\"wsSettings\":".data ++ renderWS w) ++
  ['\x7d']

/-- `xrayInbound` (`listen` and `streamSettings` are `omitempty`). -/
def renderInbound (ib : xrayInbound) : List Char :=
  "\x7b\"tag\":".data ++ jstr ib.tag ++
  (if ib.listen = "" then [] else ",\"listen\":".data ++ jstr ib.listen) ++
  ",\"port\":".data ++ intChars ib.port ++
  ",\"protocol\":".data ++ jstr ib.protocol ++
  ",\"settings\":".data ++ renderSettings ib.settings ++
  ib.stream.elim [] (fun st => ",\"streamSettings\":".data ++ renderStream st) ++
  ['\x7d']

/-- `xrayOutbound` (`settings` and `streamSettings` are `omitempty`). -/
def renderOutbound (o : xrayOutbound) : List Char :=
  "\x7b\"tag\":".data ++ jstr o.tag ++
  ",\"protocol\":".data ++ jstr o.protocol ++
  o.settings.elim [] (fun s => ",\"settings\":".data ++ renderSettings s) ++
  o.stream.elim [] (fun st => ",\"streamSettings\":".data ++ renderStream st) ++
  ['\x7d']

/-- Comma-joined renderings of a list. -/
def joinRenders {α : Type} (f : α → List Char) : List α → List Char
  | [] => []
  | [x] => f x
  | x :: rest => f x ++ ',' :: joinRenders f rest

/-- The full document: `log` (when present), `inbounds`, `outbounds`. -/
def renderFull (c : xrayFullConfig) : List Char :=
  '\x7b' ::
  (c.log.elim []
    (fun lg => "\"log\":\x7b\"loglevel\":".data ++ jstr lg.loglevel ++ "\x7d,".data) ++
  "\"inbounds\":[".data ++ joinRenders renderInbound c.inbounds ++
  "],\"outbounds\":[".data ++ joinRenders renderOutbound c.outbounds ++
  "]\x7d".data)

/-! ## Engine supervisor (internal/tunnel/engine.go)

The transient `starting`/`stopping` states are written and overwritten inside
the same mutex-guarded critical section, so a caller of `Status` can never
observe them between the entry and exit of `Start`/`Stop`; the model keeps
only the states at lock release.  The `stopCh` broadcast channel carries no
claim-relevant state and is omitted. -/

/-- `EngineStatus` from engine.go. -/
inductive EngineStatus where
  | stopped
  | starting
  | running
  | stopping
  | error
  deriving DecidableEq

/-- `EngineMode` from engine.go. -/
inductive EngineMode where
  | server
  | client
  deriving DecidableEq

/-- The two operations of an `XrayInstance`, with their outcomes fixed at
creation time (the stub instance always succeeds). -/
structure XrayInstanceModel where
  startResult : Except String Unit
  closeResult : Except String Unit
  deriving DecidableEq

/-- `XrayLoader`: compiled config bytes to an instance or a load error. -/
def XrayLoader : Type := List Char → Except String XrayInstanceModel

/-- The stub loader of engine.go: it parses the document as JSON and returns
a no-op instance whose Start/Close succeed.  `json.Marshal` output is always
well-formed JSON, so on every compiled document the stub's well-formedness
check passes. -/
def stubLoader : XrayLoader := fun _ => .ok { startResult := .ok (), closeResult := .ok () }

/-- The no-op instance returned by the stub loader. -/
def stubInst : XrayInstanceModel := { startResult := .ok (), closeResult := .ok () }

/-- Engine transition errors (engine.go wraps these in `fmt.Errorf`; distinct
constructors model the distinct format strings). -/
inductive EngineErr where
  | alreadyRunning
  | buildFailed (e : BuildErr)
  | loadFailed (msg : String)
  | instanceStartFailed (msg : String)
  | notRunning (status : EngineStatus)
  deriving DecidableEq

/-- `Engine` from engine.go (mutex and stop channel omitted, see above;
the Lean field `inst` models the Go field `instance`, a Lean keyword). -/
structure Engine where
  config : Option Config
  clientConfig : Option ClientConfig
  mode : EngineMode
  status : EngineStatus
  inst : Option XrayInstanceModel
  loader : XrayLoader
  jsonConfig : Option (List Char)

/-- `NewEngine`: nil check, validation (which defaults fields in place),
initial `stopped` status, default (stub) loader. -/
def newEngine (cfg? : Option Config) : Except String Engine :=
  match cfg? with
  | none => .error "config must not be nil"
  | some cfg =>
    match validateConfig cfg with
    | .error e => .error ("invalid config: " ++ e)
    | .ok c =>
      .ok { config := some c, clientConfig := none, mode := .server,
            status := .stopped, inst := none, loader := stubLoader,
            jsonConfig := none }

/-- `NewClientEngine`. -/
def newClientEngine (cfg? : Option ClientConfig) : Except String Engine :=
  match cfg? with
  | none => .error "client config must not be nil"
  | some cfg =>
    match validateClientConfig cfg with
    | .error e => .error ("invalid client config: " ++ e)
    | .ok c =>
      .ok { config := none, clientConfig := some c, mode := .client,
            status := .stopped, inst := none, loader := stubLoader,
            jsonConfig := none }

/-- The config-building step of `Engine.Start`, per mode. -/
def engineBuild (e : Engine) : Except BuildErr xrayFullConfig :=
  match e.mode with
  | .server => BuildServerJSON e.config
  | .client => BuildClientJSON e.clientConfig

/-- `Engine.Start`: rejected only in the `running` state; otherwise build the
JSON config (caching it), load it, and start the instance; each failure sets
the status to `error` and returns the wrapping error, and full success stores
the instance and sets the status to `running`. -/
def engineStart (e : Engine) : Except EngineErr Unit × Engine :=
  if e.status = .running then (.error .alreadyRunning, e)
  else
    match engineBuild e with
    | .error be => (.error (.buildFailed be), { e with status := .error })
    | .ok conf =>
      let bytes := renderFull conf
      match e.loader bytes with
      | .error msg =>
        (.error (.loadFailed msg), { e with status := .error, jsonConfig := some bytes })
      | .ok ins =>
        match ins.startResult with
        | .error msg =>
          (.error (.instanceStartFailed msg),
           { e with status := .error, jsonConfig := some bytes })
        | .ok _ =>
          (.ok (),
           { e with
               status := .running
               inst := some ins
               jsonConfig := some bytes })

/-- `Engine.Stop`: fails with NotRunning outside the `running` state;
otherwise closes the instance — a Close error is logged, never propagated,
and never consulted — clears it and sets the status to `stopped`. -/
def engineStop (e : Engine) : Except EngineErr Unit × Engine :=
  if e.status = .running then (.ok (), { e with status := .stopped, inst := none })
  else (.error (.notRunning e.status), e)

/-! ## Claim C10: Start is rejected only when running -/

/-- C10: `Engine.Start` returns AlreadyRunning exactly when the status is
`running`, in which case the engine is left unchanged; from every other
status — including `error` — Start proceeds, and when building, loading and
the instance start all succeed it returns ok and sets the status to
`running`, storing the instance and the cached config. -/
theorem C10_start_rejected_only_when_running :
    (∀ e : Engine, (engineStart e).1 = .error .alreadyRunning ↔ e.status = .running) ∧
    (∀ e : Engine, e.status = .running → (engineStart e).2 = e) ∧
    (∀ (e : Engine) conf ins, e.status ≠ .running →
      engineBuild e = .ok conf →
      e.loader (renderFull conf) = .ok ins →
      ins.startResult = .ok () →
      engineStart e = (.ok (),
        { e with
            status := .running
            inst := some ins
            jsonConfig := some (renderFull conf) })) := by
  refine ⟨?_, ?_, ?_⟩
  · intro e
    constructor
    · intro h
      by_cases hrun : e.status = .running
      · exact hrun
      · exfalso
        simp only [engineStart, if_neg hrun] at h
        cases hb : engineBuild e with
        | error be => simp [hb] at h
        | ok conf =>
          cases hl : e.loader (renderFull conf) with
          | error m => simp [hb, hl] at h
          | ok ins =>
            cases hst : ins.startResult with
            | error m => simp [hb, hl, hst] at h
            | ok u => simp [hb, hl, hst] at h
    · intro h
      simp [engineStart, h]
  · intro e h
    simp [engineStart, h]
  · intro e conf ins hrun hb hl hst
    simp [engineStart, if_neg hrun, hb, hl, hst]

/-- A stub-loader engine left in the `error` state with a buildable config. -/
def engC10 : Engine :=
  { config := some cfgC1good, clientConfig := none, mode := .server,
    status := .error, inst := none, loader := stubLoader, jsonConfig := none }

/-- The compiled document of `engC10`. -/
def confC10 : xrayFullConfig :=
  (engineBuild engC10).toOption.getD { log := none, inbounds := [], outbounds := [] }

/-- Witness for C10: from the `error` state, a retried Start succeeds. -/
theorem C10_start_rejected_only_when_running_witness :
    engineStart engC10 = (.ok (),
      { engC10 with
          status := .running
          inst := some stubInst
          jsonConfig := some (renderFull confC10) }) :=
  C10_start_rejected_only_when_running.2.2 engC10 confC10 stubInst
    (by decide) (by decide) rfl rfl

/-! ## Claim C4: stub-loader lifecycle Start; Start; Stop; Stop -/

/-- C4 counterexample: an engine constructed with the stub loader in the
stopped state (from the validated config `cfgC1bad`) whose FIRST Start fails
(with a build error) and moves the status to `error`, not `running`. -/
theorem C4_first_start_can_fail :
    (newEngine (some cfgC1bad)).toOption.map
      (fun e => ((engineStart e).1, (engineStart e).2.status)) =
    some (.error (.buildFailed (.badAddress "invalid listen address: no port in badlisten")),
          .error) := by
  decide

/-- C4 (amended): for an engine constructed with the stub loader in the
stopped state whose config compiles (addresses parseable), the sequence
Start; Start; Stop; Stop yields: first Start ok with status `running`;
second Start fails with AlreadyRunning leaving the engine unchanged; first
Stop ok with status `stopped` — and Stop succeeds on ANY running engine,
whatever its instance's Close result, since the Close error is logged, not
propagated; second Stop fails with NotRunning and the status stays
`stopped`. -/
theorem C4_stub_lifecycle (cfg : Config) (e : Engine)
    (he : newEngine (some cfg) = .ok e)
    (hb : exOk (engineBuild e) = true) :
    ∃ e1 e2, engineStart e = (.ok (), e1) ∧ e1.status = .running ∧
      engineStart e1 = (.error .alreadyRunning, e1) ∧
      engineStop e1 = (.ok (), e2) ∧ e2.status = .stopped ∧
      engineStop e2 = (.error (.notRunning .stopped), e2) ∧
      (∀ e3 : Engine, e3.status = .running →
        (engineStop e3).1 = .ok () ∧ (engineStop e3).2.status = .stopped) := by
  simp only [newEngine] at he
  cases hv : validateConfig cfg with
  | error m => rw [hv] at he; cases he
  | ok c =>
    rw [hv] at he
    injection he with he
    subst he
    cases hbuild : engineBuild
        { config := some c, clientConfig := none, mode := .server,
          status := .stopped, inst := none, loader := stubLoader,
          jsonConfig := none } with
    | error be => rw [hbuild] at hb; simp [exOk] at hb
    | ok conf =>
      refine ⟨{ config := some c
                clientConfig := none
                mode := .server
                status := .running
                inst := some stubInst
                loader := stubLoader
                jsonConfig := some (renderFull conf) },
              { config := some c
                clientConfig := none
                mode := .server
                status := .stopped
                inst := none
                loader := stubLoader
                jsonConfig := some (renderFull conf) },
              ?_, rfl, rfl, rfl, rfl, rfl, ?_⟩
      · simp [engineStart, hbuild, stubLoader, stubInst]
      · intro e3 h3
        simp [engineStop, h3]

/-- The engine `NewEngine` constructs from `cfgC1good` with the stub loader. -/
def engC4good : Engine :=
  { config := some cfgC1good, clientConfig := none, mode := .server,
    status := .stopped, inst := none, loader := stubLoader, jsonConfig := none }

/-- Witness for C4 on a concrete good config. -/
theorem C4_stub_lifecycle_witness :
    ∃ e1 e2, engineStart engC4good = (.ok (), e1) ∧ e1.status = .running ∧
      engineStart e1 = (.error .alreadyRunning, e1) ∧
      engineStop e1 = (.ok (), e2) ∧ e2.status = .stopped ∧
      engineStop e2 = (.error (.notRunning .stopped), e2) ∧
      (∀ e3 : Engine, e3.status = .running →
        (engineStop e3).1 = .ok () ∧ (engineStop e3).2.status = .stopped) :=
  C4_stub_lifecycle cfgC1good engC4good rfl (by decide)

/-! ## Control surface (internal/api/server.go) -/

/-- The GUI API server state: a separately cached `connected` flag plus the
supervised engine (`startTime` and the byte counters carry no
claim-relevant behaviour and are omitted). -/
structure APIServer where
  connected : Bool
  sportsMode : Bool
  engine : Engine

/-- `handleStatus`: the `connected` field of the response is recomputed from
the LIVE engine status, not from the cached flag. -/
def handleStatus (s : APIServer) : Bool × EngineStatus :=
  (s.engine.status = .running, s.engine.status)

/-- `handleConnect`: 409 when the CACHED flag is set; otherwise invoke
`Engine.Start` and answer 200 (setting the flag) or 500. -/
def handleConnect (s : APIServer) : Nat × APIServer :=
  if s.connected then (409, s)
  else
    match engineStart s.engine with
    | (.error _, e2) => (500, { s with engine := e2 })
    | (.ok _, e2) => (200, { s with engine := e2, connected := true })

/-- `handleDisconnect`: 409 when the cached flag is clear; otherwise invoke
`Engine.Stop` and answer 200 (clearing the flag) or 500. -/
def handleDisconnect (s : APIServer) : Nat × APIServer :=
  if s.connected then
    match engineStop s.engine with
    | (.error _, e2) => (500, { s with engine := e2 })
    | (.ok _, e2) => (200, { s with engine := e2, connected := false })
  else (409, s)

/-! ## Claim C8: connect conflict detection -/

/-- An engine already in the `running` state (as after a direct
`Engine.Start`, e.g. by the client main program, or by a previous API server
instance over the same engine). -/
def engRunning : Engine :=
  { config := some cfgC1good, clientConfig := none, mode := .server,
    status := .running, inst := some stubInst, loader := stubLoader,
    jsonConfig := none }

/-- An API server whose cached flag has diverged from the live engine
state. -/
def apiDiverged : APIServer :=
  { connected := false, sportsMode := false, engine := engRunning }

/-- C8 counterexample: the supervisor is live-connected (status `running`,
as `handleStatus` itself reports) yet `handleConnect` does not return 409 —
it consults the stale cached flag, calls Start, and returns 500. -/
theorem C8_conflict_check_uses_cached_flag :
    handleStatus apiDiverged = (true, .running) ∧
    (handleConnect apiDiverged).1 = 500 := by
  exact ⟨by decide, by decide⟩

/-- C8 (amended): `handleConnect` returns Conflict (409) exactly when the
server's CACHED connected flag is set — a flag maintained independently of
the engine and able to diverge from it; when the flag is clear it invokes
Start, returning 500 on failure (including AlreadyRunning, when the engine
is live-running but the flag is stale) and 200 with the flag set on
success. -/
theorem C8_connect_behavior :
    (∀ s : APIServer, (handleConnect s).1 = 409 ↔ s.connected = true) ∧
    (∀ s : APIServer, s.connected = false → s.engine.status = .running →
      (handleConnect s).1 = 500) ∧
    (∀ (s : APIServer) e2, s.connected = false →
      engineStart s.engine = (.ok (), e2) →
      handleConnect s = (200, { s with engine := e2, connected := true })) := by
  refine ⟨?_, ?_, ?_⟩
  · intro s
    constructor
    · intro h
      by_cases hc : s.connected
      · exact hc
      · exfalso
        simp only [handleConnect, if_neg hc] at h
        cases hst : engineStart s.engine with
        | mk r e2 =>
          rw [hst] at h
          cases r with
          | error x => simp at h
          | ok x => simp at h
    · intro h
      simp [handleConnect, h]
  · intro s hc hrun
    have hst : (engineStart s.engine).1 = .error .alreadyRunning := by
      simp [engineStart, hrun]
    simp only [handleConnect, hc, Bool.false_eq_true, if_false]
    cases he : engineStart s.engine with
    | mk r e2 =>
      rw [he] at hst
      simp only at hst
      cases r with
      | error x => rfl
      | ok x => cases hst
  · intro s e2 hc hst
    simp [handleConnect, hc, hst]

/-- Witness for C8 at the diverged state. -/
theorem C8_connect_behavior_witness :
    ((handleConnect apiDiverged).1 = 409 ↔ apiDiverged.connected = true) ∧
    (handleConnect apiDiverged).1 = 500 :=
  ⟨C8_connect_behavior.1 apiDiverged, C8_connect_behavior.2.1 apiDiverged rfl rfl⟩

/-! ## Rotation controllers (internal/rotation)

Wall-clock time is passed explicitly in seconds.  The effects of goroutines
spawned for asynchronous retirement are applied as part of the spawning
step; provider HTTP calls are modelled by an explicit result parameter whose
value the code logs but never propagates. -/

/-- `Endpoint` from the rotation package. -/
structure Endpoint where
  id : String
  address : String
  region : String
  provider : String
  createdAt : Nat
  expiresAt : Nat
  metadata : List (String × String)
  deriving DecidableEq

/-- `Endpoint.IsExpired`: `time.Now().After(ExpiresAt)`, i.e. strictly
later than the expiry instant. -/
def isExpired (now : Nat) (e : Endpoint) : Bool := decide (e.expiresAt < now)

/-- The state shared by all controller variants (`NoOpController` embeds it):
the endpoint list and the monotonically increasing rotation counter. -/
structure CtrlState where
  endpoints : List Endpoint
  counter : Nat
  deriving DecidableEq

/-- A fresh controller state (`NewNoOpController`). -/
def ctrlInit : CtrlState := { endpoints := [], counter := 0 }

/-- `NoOpController.Rotate`: bump the counter, append a synthetic loopback
endpoint expiring one hour from now. -/
def noopRotate (now : Nat) (s : CtrlState) : Endpoint × CtrlState :=
  let c := s.counter + 1
  let ep : Endpoint :=
    { id := "noop-" ++ String.mk (natDigits c)
      address := "127.0.0.1:" ++ String.mk (natDigits (10000 + c))
      region := "local"
      provider := "noop"
      createdAt := now
      expiresAt := now + 3600
      metadata := [] }
  (ep, { endpoints := s.endpoints ++ [ep], counter := c })

/-- Retire errors. -/
inductive RetireErr where
  | notFound (id : String)
  deriving DecidableEq

/-- Remove the first endpoint with the given id (the loop-with-break used by
all three Retire implementations); `none` when no endpoint matches. -/
def removeFirstById : List Endpoint → String → Option (List Endpoint)
  | [], _ => none
  | e :: rest, i =>
    if e.id = i then some rest
    else (removeFirstById rest i).map (fun l => e :: l)

/-- `NoOpController.Retire`: remove the first matching endpoint, or return
the not-found error. -/
def noopRetire (s : CtrlState) (ep : Endpoint) : Except RetireErr CtrlState :=
  match removeFirstById s.endpoints ep.id with
  | some l => .ok { s with endpoints := l }
  | none => .error (.notFound ep.id)

/-- `ActiveEndpoints`: the non-expired endpoints, in order. -/
def activeEndpoints (now : Nat) (s : CtrlState) : List Endpoint :=
  s.endpoints.filter (fun e => !(isExpired now e))

/-- `CloudflareController.Retire`: endpoints of another provider are
delegated to the embedded no-op Retire; for its own provider it calls the
worker-deletion API (whose outcome `deleteRes` is logged, never returned),
removes the endpoint from the list when present, and always answers ok. -/
def cfRetire (s : CtrlState) (ep : Endpoint) (deleteRes : Except String Unit) :
    Except RetireErr CtrlState :=
  if ep.provider ≠ "cloudflare" then noopRetire s ep
  else
    let _ := deleteRes
    .ok { s with endpoints := (removeFirstById s.endpoints ep.id).getD s.endpoints }

/-- `AWSController.Retire`: same shape with provider tag `aws` and the
Lambda-deletion API. -/
def awsRetire (s : CtrlState) (ep : Endpoint) (deleteRes : Except String Unit) :
    Except RetireErr CtrlState :=
  if ep.provider ≠ "aws" then noopRetire s ep
  else
    let _ := deleteRes
    .ok { s with endpoints := (removeFirstById s.endpoints ep.id).getD s.endpoints }

/-- One iteration of the `NoOpController.StartAutoRotation` ticker loop:
Rotate, then spawn `Retire(ep)` for every endpoint that IS expired (the
spawned removals are applied here; ids are unique so their net effect is
dropping exactly the expired endpoints). -/
def autoRotateTick (now : Nat) (s : CtrlState) : CtrlState :=
  let s1 := (noopRotate now s).2
  { s1 with endpoints := s1.endpoints.filter (fun e => !(isExpired now e)) }

/-- `n` ticker iterations all happening at time 0, from a fresh controller. -/
def ticksAtZero : Nat → CtrlState
  | 0 => ctrlInit
  | n + 1 => autoRotateTick 0 (ticksAtZero n)

/-! ## Claim C6: auto-rotation endpoint cap -/

/-- C6 counterexample: three scheduled rotations leave THREE active
endpoints, a fourth leaves FOUR, and the oldest endpoint `noop-1` is still
active — the loop never retires an unexpired endpoint, so the active list is
not kept at two. -/
theorem C6_active_list_exceeds_two :
    (activeEndpoints 0 (ticksAtZero 3)).length = 3 ∧
    (activeEndpoints 0 (ticksAtZero 4)).length = 4 ∧
    "noop-1" ∈ (ticksAtZero 4).endpoints.map (fun e => e.id) := by
  decide

theorem ticksAtZero_spec (n : Nat) :
    (ticksAtZero n).counter = n ∧
    (ticksAtZero n).endpoints.length = n ∧
    (∀ e ∈ (ticksAtZero n).endpoints, e.expiresAt = 3600) ∧
    (1 ≤ n → "noop-1" ∈ (ticksAtZero n).endpoints.map (fun e => e.id)) := by
  induction n with
  | zero =>
    refine ⟨rfl, rfl, ?_, ?_⟩
    · intro e he
      cases he
    · intro h
      cases h
  | succ n ih =>
    obtain ⟨hc, hlen, hexp, hmem⟩ := ih
    have hkeep : ((ticksAtZero n).endpoints ++
        [(noopRotate 0 (ticksAtZero n)).1]).filter
          (fun e => !(isExpired 0 e)) =
        (ticksAtZero n).endpoints ++ [(noopRotate 0 (ticksAtZero n)).1] := by
      rw [List.filter_eq_self]
      intro e he
      rcases List.mem_append.mp he with h | h
      · simp [isExpired, hexp e h]
      · simp only [List.mem_singleton] at h
        subst h
        simp [isExpired, noopRotate]
    have hstep : (ticksAtZero (n + 1)).endpoints =
        (ticksAtZero n).endpoints ++ [(noopRotate 0 (ticksAtZero n)).1] := by
      show (autoRotateTick 0 (ticksAtZero n)).endpoints = _
      simp only [autoRotateTick, noopRotate]
      exact hkeep
    refine ⟨?_, ?_, ?_, ?_⟩
    · show (autoRotateTick 0 (ticksAtZero n)).counter = n + 1
      simp [autoRotateTick, noopRotate, hc]
    · rw [hstep]
      simp [hlen]
    · intro e he
      rw [hstep] at he
      rcases List.mem_append.mp he with h | h
      · exact hexp e h
      · simp only [List.mem_singleton] at h
        subst h
        simp [noopRotate]
    · intro _
      rw [hstep]
      rcases Nat.eq_zero_or_pos n with h0 | hpos
      · subst h0
        simp [noopRotate, ticksAtZero, ctrlInit]
        decide
      · have := hmem hpos
        simp only [List.map_append, List.mem_append]
        left
        exact this

/-- C6 (amended): while auto-rotation is active, each scheduled tick invokes
Rotate and then asynchronously retires exactly the EXPIRED endpoints (past
creation + 1 hour); the active list is NOT capped at two previous endpoints:
with every tick inside the expiry hour it grows by one endpoint per tick,
the oldest (`noop-1`) included, and only expired endpoints are ever removed
by the loop. -/
theorem C6_auto_rotation_unbounded_growth :
    (∀ n, (ticksAtZero n).endpoints.length = n) ∧
    (∀ n, 1 ≤ n → "noop-1" ∈ (ticksAtZero n).endpoints.map (fun e => e.id)) ∧
    (∀ now s e, e ∈ (autoRotateTick now s).endpoints → isExpired now e = false) := by
  refine ⟨fun n => (ticksAtZero_spec n).2.1,
          fun n h => (ticksAtZero_spec n).2.2.2 h, ?_⟩
  intro now s e he
  simp only [autoRotateTick, List.mem_filter] at he
  have := he.2
  simpa using this

/-- Witness for C6 at three ticks. -/
theorem C6_auto_rotation_unbounded_growth_witness :
    (ticksAtZero 3).endpoints.length = 3 ∧
    "noop-1" ∈ (ticksAtZero 3).endpoints.map (fun e => e.id) :=
  ⟨C6_auto_rotation_unbounded_growth.1 3,
   C6_auto_rotation_unbounded_growth.2.1 3 (by decide)⟩

/-! ## Claim C7: Retire on an unknown endpoint -/

/-- An endpoint id absent from any fresh controller. -/
def epGhostCF : Endpoint :=
  { id := "ghost", address := "a", region := "r", provider := "cloudflare",
    createdAt := 0, expiresAt := 0, metadata := [] }

/-- The same unknown endpoint under the serverless provider tag. -/
def epGhostAWS : Endpoint :=
  { id := "ghost", address := "a", region := "r", provider := "aws",
    createdAt := 0, expiresAt := 0, metadata := [] }

/-- C7 counterexample: retiring an endpoint whose id is in no active list
returns ok — not NotFound — on the Cloudflare and AWS controllers whenever
the endpoint carries their own provider tag (even when the provider call
fails); only the no-op controller answers NotFound. -/
theorem C7_provider_retire_unknown_returns_ok :
    cfRetire ctrlInit epGhostCF (.error "api failure") = .ok ctrlInit ∧
    awsRetire ctrlInit epGhostAWS (.error "api failure") = .ok ctrlInit ∧
    noopRetire ctrlInit epGhostCF = .error (.notFound "ghost") := by
  decide

theorem removeFirstById_eq_none (l : List Endpoint) (i : String) :
    removeFirstById l i = none ↔ i ∉ l.map (fun e => e.id) := by
  induction l with
  | nil => simp [removeFirstById]
  | cons e rest ih =>
    by_cases h : e.id = i
    · simp [removeFirstById, h]
    · have hrw : removeFirstById (e :: rest) i =
          (removeFirstById rest i).map (fun l => e :: l) := by
        simp [removeFirstById, h]
      rw [hrw]
      cases hr : removeFirstById rest i with
      | none =>
        rw [hr] at ih
        simp only [Option.map_none', List.map_cons, List.mem_cons]
        refine iff_of_true (by trivial) ?_
        intro hor
        rcases hor with h1 | h2
        · exact h h1.symm
        · exact (ih.mp rfl) h2
      | some l2 =>
        rw [hr] at ih
        simp only [Option.map_some', List.map_cons, List.mem_cons]
        refine iff_of_false (by intro hc; cases hc) ?_
        intro hnot
        exact Option.noConfusion (ih.mpr (fun hm => hnot (Or.inr hm)))

/-- C7 (amended): `Retire` with an endpoint whose identifier is not in the
active list returns NotFound on the local (NoOp) controller — and on the
CDN-worker (Cloudflare) and serverless (AWS) controllers only when the
endpoint carries a FOREIGN provider tag, because they then delegate to the
embedded no-op Retire; for an endpoint carrying their own provider tag they
call the provider (errors logged, not raised) and return ok whether or not
the identifier is in the active list. -/
theorem C7_retire_not_found_behavior :
    (∀ s ep, noopRetire s ep = .error (.notFound ep.id) ↔
      ep.id ∉ s.endpoints.map (fun e => e.id)) ∧
    (∀ s ep r, ep.provider ≠ "cloudflare" → cfRetire s ep r = noopRetire s ep) ∧
    (∀ s ep r, ep.provider = "cloudflare" →
      ep.id ∉ s.endpoints.map (fun e => e.id) → cfRetire s ep r = .ok s) ∧
    (∀ s ep r, ep.provider = "cloudflare" → exOk (cfRetire s ep r) = true) ∧
    (∀ s ep r, ep.provider ≠ "aws" → awsRetire s ep r = noopRetire s ep) ∧
    (∀ s ep r, ep.provider = "aws" →
      ep.id ∉ s.endpoints.map (fun e => e.id) → awsRetire s ep r = .ok s) ∧
    (∀ s ep r, ep.provider = "aws" → exOk (awsRetire s ep r) = true) := by
  refine ⟨?_, ?_, ?_, ?_, ?_, ?_, ?_⟩
  · intro s ep
    simp only [noopRetire]
    cases hr : removeFirstById s.endpoints ep.id with
    | none =>
      simp only []
      rw [← removeFirstById_eq_none s.endpoints ep.id]
      simp [hr]
    | some l =>
      simp only []
      constructor
      · intro hcontr; cases hcontr
      · intro hni
        exfalso
        rw [← removeFirstById_eq_none s.endpoints ep.id] at hni
        rw [hr] at hni
        cases hni
  · intro s ep r h
    simp [cfRetire, h]
  · intro s ep r h hni
    have hn : removeFirstById s.endpoints ep.id = none :=
      (removeFirstById_eq_none s.endpoints ep.id).mpr hni
    simp [cfRetire, h, hn]
  · intro s ep r h
    simp [cfRetire, h, exOk]
  · intro s ep r h
    simp [awsRetire, h]
  · intro s ep r h hni
    have hn : removeFirstById s.endpoints ep.id = none :=
      (removeFirstById_eq_none s.endpoints ep.id).mpr hni
    simp [awsRetire, h, hn]
  · intro s ep r h
    simp [awsRetire, h, exOk]

/-- Witness for C7 at the fresh controller and the unknown endpoint. -/
theorem C7_retire_not_found_behavior_witness :
    (noopRetire ctrlInit epGhostCF = .error (.notFound epGhostCF.id) ↔
      epGhostCF.id ∉ ctrlInit.endpoints.map (fun e => e.id)) ∧
    cfRetire ctrlInit epGhostCF (.ok ()) = .ok ctrlInit ∧
    awsRetire ctrlInit epGhostAWS (.ok ()) = .ok ctrlInit :=
  ⟨C7_retire_not_found_behavior.1 ctrlInit epGhostCF,
   C7_retire_not_found_behavior.2.2.1 ctrlInit epGhostCF (.ok ()) rfl (by decide),
   C7_retire_not_found_behavior.2.2.2.2.2.1 ctrlInit epGhostAWS (.ok ()) rfl (by decide)⟩

/-! ## Health monitor (internal/rotation/health.go)

The three probe branches of `checkEndpoint` (HTTPS for `cloudflare`/`aws`,
raw TCP otherwise) apply identical bookkeeping to the probe outcome, which
network I/O decides; the outcome is therefore an oracle parameter: `none`
for a successful probe, `some e` for a failed probe with error text `e`.
`Latency` and `LastCheck` are wall-clock measurements with no claim-relevant
behaviour and are omitted. -/

/-- `HealthResult` (the Lean field `errMsg` models the Go field `Error`). -/
structure HealthResult where
  endpointID : String
  healthy : Bool
  failCount : Int
  errMsg : String
  deriving DecidableEq

/-- `HealthChecker.checkEndpoint`: start from the previous fail count when a
previous result exists; a successful probe resets the counter to zero and
marks healthy; a failed probe increments it by one, marks unhealthy, and
records the error text. -/
def checkEndpoint (prev : Option HealthResult) (epID : String)
    (probe : Option String) : HealthResult :=
  let base : Int :=
    match prev with
    | some p => p.failCount
    | none => 0
  match probe with
  | none => { endpointID := epID, healthy := true, failCount := 0, errMsg := "" }
  | some e => { endpointID := epID, healthy := false, failCount := base + 1, errMsg := e }

/-- The calls `checkAll` issues against the controller from its spawned
rotation goroutines. -/
inductive ControllerCall where
  | retire (id : String)
  | rotate
  deriving DecidableEq

/-- One iteration of the `checkAll` loop body: probe the endpoint, store the
result (map overwrite = shadowing cons), and when the result is unhealthy
with a fail count of at least 3, spawn `Retire(ep)` followed by `Rotate()`. -/
def healthStep (st : List (String × HealthResult) × List ControllerCall)
    (x : Endpoint × Option String) :
    List (String × HealthResult) × List ControllerCall :=
  let r := checkEndpoint (st.1.lookup x.1.id) x.1.id x.2
  ((x.1.id, r) :: st.1,
   if r.healthy = false ∧ 3 ≤ r.failCount then
     st.2 ++ [.retire x.1.id, .rotate]
   else st.2)

/-- `HealthChecker.checkAll`: probe every active endpoint in order, given the
probe outcome of each; returns the updated results map and the controller
calls issued during this sweep. -/
def checkAll (res : List (String × HealthResult))
    (batch : List (Endpoint × Option String)) :
    List (String × HealthResult) × List ControllerCall :=
  batch.foldl healthStep (res, [])

/-- The results map after a sequence of `checkAll` sweeps starting from the
empty map of a fresh `HealthChecker`. -/
def runBatches (batches : List (List (Endpoint × Option String))) :
    List (String × HealthResult) :=
  batches.foldl (fun res b => (checkAll res b).1) []

/-- The two data invariants of the results map. -/
def resultsInv (res : List (String × HealthResult)) : Prop :=
  ∀ i r, res.lookup i = some r →
    0 ≤ r.failCount ∧ (r.failCount = 0 → r.healthy = true)

theorem healthStep_preserves_inv (res : List (String × HealthResult))
    (acts : List ControllerCall) (x : Endpoint × Option String)
    (h : resultsInv res) : resultsInv (healthStep (res, acts) x).1 := by
  intro i r hi
  simp only [healthStep, List.lookup] at hi
  by_cases hid : i = x.1.id
  · have hbeq : (i == x.1.id) = true := by simp [hid]
    simp only [hbeq] at hi
    injection hi with hi
    subst hi
    cases hp : x.2 with
    | none => simp [checkEndpoint]
    | some e =>
      simp only [checkEndpoint, hp]
      cases hl : res.lookup x.1.id with
      | none => simp
      | some p =>
        have := (h x.1.id p hl).1
        constructor
        · simp
          omega
        · intro hzero
          simp at hzero
          omega
  · have hbeq : (i == x.1.id) = false := by simp [hid]
    simp only [hbeq] at hi
    exact h i r hi

theorem checkAll_fold_preserves_inv
    (batch : List (Endpoint × Option String)) :
    ∀ (res : List (String × HealthResult)) (acts : List ControllerCall),
      resultsInv res → resultsInv (batch.foldl healthStep (res, acts)).1 := by
  induction batch with
  | nil => intro res acts h; exact h
  | cons x rest ih =>
    intro res acts h
    simp only [List.foldl_cons]
    have h2 := healthStep_preserves_inv res acts x h
    cases hs : healthStep (res, acts) x with
    | mk res2 acts2 =>
      rw [hs] at h2
      exact ih res2 acts2 h2

/-- No retire call is ever the last action, and every retire call is
immediately followed by a rotate call. -/
def retireThenRotate (acts : List ControllerCall) : Prop :=
  ∀ j i, acts[j]? = some (.retire i) → acts[j + 1]? = some .rotate

theorem retireThenRotate_append (acts : List ControllerCall) (i0 : String)
    (h : retireThenRotate acts) :
    retireThenRotate (acts ++ [.retire i0, .rotate]) := by
  intro j i hj
  rcases Nat.lt_or_ge j acts.length with hlt | hge
  · rw [List.getElem?_append, if_pos hlt] at hj
    have hnext := h j i hj
    have hlt2 : j + 1 < acts.length := by
      by_contra hc
      have hnone : acts[j + 1]? = none := by
        rw [List.getElem?_eq_none]
        omega
      rw [hnone] at hnext
      cases hnext
    rw [List.getElem?_append, if_pos hlt2]
    exact h j i hj
  · rcases Nat.eq_or_lt_of_le hge with heq | hgt
    · have : (acts ++ [ControllerCall.retire i0, ControllerCall.rotate])[j + 1]? =
          some .rotate := by
        rw [List.getElem?_append_right (by omega)]
        have : j + 1 - acts.length = 1 := by omega
        rw [this]
        rfl
      exact this
    · rw [List.getElem?_append_right (by omega)] at hj
      rcases Nat.eq_or_lt_of_le hgt with heq1 | hgt1
      · exfalso
        have : j - acts.length = 1 := by omega
        rw [this] at hj
        cases hj
      · exfalso
        have hn : (([ControllerCall.retire i0, ControllerCall.rotate] :
            List ControllerCall))[j - acts.length]? = none := by
          rw [List.getElem?_eq_none]
          simp
          omega
        rw [hn] at hj
        cases hj

theorem checkAll_fold_retireThenRotate
    (batch : List (Endpoint × Option String)) :
    ∀ (res : List (String × HealthResult)) (acts : List ControllerCall),
      retireThenRotate acts →
      retireThenRotate (batch.foldl healthStep (res, acts)).2 := by
  induction batch with
  | nil => intro res acts h; exact h
  | cons x rest ih =>
    intro res acts h
    simp only [List.foldl_cons]
    by_cases hc : (checkEndpoint (res.lookup x.1.id) x.1.id x.2).healthy = false ∧
        3 ≤ (checkEndpoint (res.lookup x.1.id) x.1.id x.2).failCount
    · have hs : healthStep (res, acts) x =
          ((x.1.id, checkEndpoint (res.lookup x.1.id) x.1.id x.2) :: res,
           acts ++ [.retire x.1.id, .rotate]) := by
        simp [healthStep, if_pos hc]
      rw [hs]
      exact ih _ _ (retireThenRotate_append acts x.1.id h)
    · have hs : healthStep (res, acts) x =
          ((x.1.id, checkEndpoint (res.lookup x.1.id) x.1.id x.2) :: res, acts) := by
        simp [healthStep, if_neg hc]
      rw [hs]
      exact ih _ _ h

/-! ## Claim C5: health counter behaviour -/

/-- C5: a successful probe resets the counter to 0 and marks healthy; a
failed probe increments the counter by 1 from its previous value, marks
unhealthy, and records the error string; whenever a sweep computes an
unhealthy result whose counter has reached 3, it issues `Retire(endpoint)`
with `Rotate()` as the immediately following controller call — in every
sweep each retire call is immediately followed by a rotate call; and on
every results map reachable from the fresh checker the counter is ≥ 0, with
counter = 0 implying the most recent probe was healthy. -/
theorem C5_health_counter_behavior :
    (∀ prev epID, checkEndpoint prev epID none =
      { endpointID := epID, healthy := true, failCount := 0, errMsg := "" }) ∧
    (∀ prev epID e,
      (checkEndpoint prev epID (some e)).failCount =
        (match prev with
         | some p => p.failCount
         | none => 0) + 1 ∧
      (checkEndpoint prev epID (some e)).healthy = false ∧
      (checkEndpoint prev epID (some e)).errMsg = e) ∧
    (∀ res acts x,
      (checkEndpoint (res.lookup x.1.id) x.1.id x.2).healthy = false →
      3 ≤ (checkEndpoint (res.lookup x.1.id) x.1.id x.2).failCount →
      (healthStep (res, acts) x).2 = acts ++ [.retire x.1.id, .rotate]) ∧
    (∀ res batch, retireThenRotate (checkAll res batch).2) ∧
    (∀ batches i r, (runBatches batches).lookup i = some r →
      0 ≤ r.failCount ∧ (r.failCount = 0 → r.healthy = true)) := by
  refine ⟨fun prev epID => rfl, fun prev epID e => ⟨rfl, rfl, rfl⟩, ?_, ?_, ?_⟩
  · intro res acts x hh hcnt
    simp [healthStep, if_pos (And.intro hh hcnt)]
  · intro res batch
    exact checkAll_fold_retireThenRotate batch res []
      (by intro j i hj; simp at hj)
  · intro batches
    suffices hinv : resultsInv (runBatches batches) by exact hinv
    show resultsInv (batches.foldl (fun res b => (checkAll res b).1) [])
    have hgen : ∀ (bs : List (List (Endpoint × Option String)))
        (res : List (String × HealthResult)), resultsInv res →
        resultsInv (bs.foldl (fun res b => (checkAll res b).1) res) := by
      intro bs
      induction bs with
      | nil => intro res h; exact h
      | cons b rest ih =>
        intro res h
        simp only [List.foldl_cons]
        exact ih _ (checkAll_fold_preserves_inv b res [] h)
    exact hgen batches [] (by intro i r hi; cases hi)

/-- A concrete endpoint for the health witness. -/
def epProbe : Endpoint :=
  { id := "ep-1", address := "127.0.0.1:10001", region := "local",
    provider := "noop", createdAt := 0, expiresAt := 3600, metadata := [] }

/-- The result stored for `epProbe` after one failed sweep over a fresh
checker. -/
def hrWitness : HealthResult :=
  { endpointID := "ep-1", healthy := false, failCount := 1, errMsg := "boom" }

/-- A stored result with two consecutive failures. -/
def hrTwoFails : HealthResult :=
  { endpointID := "ep-1", healthy := false, failCount := 2, errMsg := "x" }

/-- Witness for C5: after one failed sweep over a fresh checker the stored
counter is positive, and the trigger clause applies at a counter of 3. -/
theorem C5_health_counter_behavior_witness :
    (0 ≤ hrWitness.failCount ∧ (hrWitness.failCount = 0 → hrWitness.healthy = true)) ∧
    (healthStep ([(epProbe.id, hrTwoFails)], []) (epProbe, some "boom")).2 =
      [] ++ [.retire epProbe.id, .rotate] :=
  ⟨C5_health_counter_behavior.2.2.2.2 [[(epProbe, some "boom")]] epProbe.id
      hrWitness (by decide),
   C5_health_counter_behavior.2.2.1
      [(epProbe.id, hrTwoFails)] [] (epProbe, some "boom")
      (by decide) (by decide)⟩

/-! ## Claim C2 machinery: case-insensitive substring hygiene

The scan of dpi_test.go lowercases the document and looks for the needles
below.  Each needle is non-empty, contains a letter, starts with a letter,
and contains none of the separator characters of the JSON syntax; so a
claimed occurrence can be split at any separator character until it must lie
either inside a concrete literal chunk of the renderer (refuted by `decide`),
inside a run of number characters (refuted because needles start with and
contain letters), or inside a config-supplied string (excluded by
hypothesis). -/

/-- The identifying substrings from dpi_test.go. -/
def leakSetL : List (List Char) :=
  ["entropy".data, "tunnel".data, "vpn".data, "proxy".data,
   "shadowsocks".data, "v2ray".data, "xray".data]

/-- The scan set without `proxy` — the tag every client document carries. -/
def clientLeakSetL : List (List Char) :=
  ["entropy".data, "tunnel".data, "vpn".data,
   "shadowsocks".data, "v2ray".data, "xray".data]

/-- `l` contains no needle of `S` after byte-level lower-casing. -/
@[reducible]
def CleanIn (S : List (List Char)) (l : List Char) : Prop :=
  ∀ w ∈ S, ¬ (w <:+: lowerL l)

/-- A character (as it appears in the lowered document) no needle contains:
safe to split occurrences at. -/
@[reducible]
def sepOK (c : Char) : Prop := ∀ w ∈ leakSetL, goLower c ∉ w

/-- Characters of rendered numbers. -/
@[reducible]
def numChar (c : Char) : Prop :=
  c ∈ ['0', '1', '2', '3', '4', '5', '6', '7', '8', '9', '-']

theorem clientLeakSetL_sub : ∀ w ∈ clientLeakSetL, w ∈ leakSetL := by decide

theorem leakSetL_sub : ∀ w ∈ leakSetL, w ∈ leakSetL := fun _ hw => hw

theorem needle_ne_nil : ∀ w ∈ leakSetL, w ≠ [] := by decide

theorem needle_head_not_num : ∀ w ∈ leakSetL, ∀ c ∈ w.take 1, ¬ numChar c := by
  decide

theorem needle_has_letter : ∀ w ∈ leakSetL, ∃ c ∈ w, 'a' ≤ c ∧ c ≤ 'z' := by
  decide

theorem CleanIn_of_subset {S T : List (List Char)} {l : List Char}
    (hsub : ∀ w ∈ S, w ∈ T) (h : CleanIn T l) : CleanIn S l :=
  fun w hw => h w (hsub w hw)

theorem prefix_drop_sep {b : List Char} {c : Char} :
    ∀ (a w : List Char), c ∉ w → w <+: a ++ c :: b → w <+: a := by
  intro a
  induction a with
  | nil =>
    intro w hc hp
    cases w with
    | nil => exact List.nil_prefix
    | cons d w2 =>
      rw [List.nil_append, List.cons_prefix_cons] at hp
      exact absurd (List.mem_cons.mpr (Or.inl hp.1.symm)) hc
  | cons x a2 ih =>
    intro w hc hp
    cases w with
    | nil => exact List.nil_prefix
    | cons d w2 =>
      rw [List.cons_append, List.cons_prefix_cons] at hp
      obtain ⟨hdx, hp2⟩ := hp
      have hc2 : c ∉ w2 := fun hm => hc (List.mem_cons.mpr (Or.inr hm))
      exact List.cons_prefix_cons.mpr ⟨hdx, ih w2 hc2 hp2⟩

theorem infix_split_sep {b : List Char} {c : Char} :
    ∀ (a w : List Char), c ∉ w → w <:+: a ++ c :: b → w <:+: a ∨ w <:+: b := by
  intro a
  induction a with
  | nil =>
    intro w hc hi
    rw [List.nil_append, List.infix_cons_iff] at hi
    rcases hi with hp | hi
    · cases w with
      | nil => exact Or.inl List.nil_infix
      | cons d w2 =>
        rw [List.cons_prefix_cons] at hp
        exact absurd (List.mem_cons.mpr (Or.inl hp.1.symm)) hc
    · exact Or.inr hi
  | cons x a2 ih =>
    intro w hc hi
    rw [List.cons_append, List.infix_cons_iff] at hi
    rcases hi with hp | hi
    · cases w with
      | nil => exact Or.inl List.nil_infix
      | cons d w2 =>
        rw [List.cons_prefix_cons] at hp
        obtain ⟨hdx, hp2⟩ := hp
        have hc2 : c ∉ w2 := fun hm => hc (List.mem_cons.mpr (Or.inr hm))
        have h2 := prefix_drop_sep a2 w2 hc2 hp2
        exact Or.inl (List.cons_prefix_cons.mpr ⟨hdx, h2⟩).isInfix
    · rcases ih w hc hi with h | h
      · exact Or.inl (List.infix_cons h)
      · exact Or.inr h

theorem prefix_append_decomp {b : List Char} :
    ∀ (a w : List Char), w <+: a ++ b →
      w <+: a ∨ ∃ w2, w = a ++ w2 ∧ w2 <+: b := by
  intro a
  induction a with
  | nil =>
    intro w h
    exact Or.inr ⟨w, by simp, by simpa using h⟩
  | cons x a2 ih =>
    intro w h
    cases w with
    | nil => exact Or.inl List.nil_prefix
    | cons d w2 =>
      rw [List.cons_append, List.cons_prefix_cons] at h
      obtain ⟨hdx, h2⟩ := h
      rcases ih w2 h2 with h3 | ⟨w3, heq, hpre⟩
      · exact Or.inl (List.cons_prefix_cons.mpr ⟨hdx, h3⟩)
      · subst hdx
        exact Or.inr ⟨w3, by rw [heq, List.cons_append], hpre⟩

theorem infix_append_decomp {b : List Char} :
    ∀ (a w : List Char), w <:+: a ++ b →
      w <:+: a ∨ w <:+: b ∨
        ∃ w1 w2, w = w1 ++ w2 ∧ w1 ≠ [] ∧ w1 <:+ a ∧ w2 <+: b := by
  intro a
  induction a with
  | nil =>
    intro w h
    exact Or.inr (Or.inl (by simpa using h))
  | cons x a2 ih =>
    intro w h
    rw [List.cons_append, List.infix_cons_iff] at h
    rcases h with hp | hi
    · have hp2 : w <+: (x :: a2) ++ b := by simpa using hp
      rcases prefix_append_decomp (x :: a2) w hp2 with h3 | ⟨w3, heq, hpre⟩
      · exact Or.inl h3.isInfix
      · cases w3 with
        | nil =>
          rw [List.append_nil] at heq
          exact Or.inl (heq ▸ List.infix_rfl)
        | cons y w4 =>
          exact Or.inr (Or.inr ⟨x :: a2, y :: w4, heq, List.cons_ne_nil x a2,
            List.suffix_rfl, hpre⟩)
    · rcases ih w hi with h3 | h3 | ⟨w1, w2, heq, hne, hsuf, hpre⟩
      · exact Or.inl (List.infix_cons h3)
      · exact Or.inr (Or.inl h3)
      · exact Or.inr (Or.inr ⟨w1, w2, heq, hne,
          hsuf.trans (List.suffix_cons x a2), hpre⟩)

theorem CleanIn_nil {S : List (List Char)} (hS : ∀ w ∈ S, w ∈ leakSetL) :
    CleanIn S [] := by
  intro w hw hi
  exact needle_ne_nil w (hS w hw) (List.eq_nil_of_infix_nil hi)

theorem CleanIn_append_sep {S : List (List Char)} {a b : List Char} {c : Char}
    (hS : ∀ w ∈ S, w ∈ leakSetL) (hc : sepOK c)
    (ha : CleanIn S a) (hb : CleanIn S b) : CleanIn S (a ++ c :: b) := by
  intro w hw hi
  have hlow : lowerL (a ++ c :: b) = lowerL a ++ goLower c :: lowerL b := by
    simp [lowerL]
  rw [hlow] at hi
  have hcw : goLower c ∉ w := hc w (hS w hw)
  rcases infix_split_sep (lowerL a) w hcw hi with h | h
  · exact ha w hw h
  · exact hb w hw h

theorem CleanIn_cons_sep {S : List (List Char)} {b : List Char} {c : Char}
    (hS : ∀ w ∈ S, w ∈ leakSetL) (hc : sepOK c) (hb : CleanIn S b) :
    CleanIn S (c :: b) := by
  have h := CleanIn_append_sep (a := []) hS hc (CleanIn_nil hS) hb
  simpa using h

theorem CleanIn_of_cons {S : List (List Char)} {b : List Char} {c : Char}
    (h : CleanIn S (c :: b)) : CleanIn S b := by
  intro w hw hi
  apply h w hw
  simp only [lowerL, List.map_cons]
  exact List.infix_cons hi

/-- The list is empty or starts with a separator-safe character. -/
def headSafe (l : List Char) : Prop := ∀ c l2, l = c :: l2 → sepOK c

theorem headSafe_nil : headSafe [] := fun _ _ h => by cases h

theorem headSafe_cons {l : List Char} (c : Char) (hc : sepOK c) :
    headSafe (c :: l) := by
  intro d l2 h
  injection h with h1 _
  subst h1
  exact hc

theorem headSafe_append {a b : List Char} (ha : headSafe a) (hb : headSafe b) :
    headSafe (a ++ b) := by
  cases a with
  | nil => simpa using hb
  | cons x a2 =>
    intro d l2 h
    rw [List.cons_append] at h
    injection h with h1 _
    subst h1
    exact ha x a2 rfl

theorem headSafe_append_left {a b : List Char} (hne : a ≠ []) (ha : headSafe a) :
    headSafe (a ++ b) := by
  cases a with
  | nil => exact absurd rfl hne
  | cons x a2 =>
    intro d l2 h
    rw [List.cons_append] at h
    injection h with h1 _
    subst h1
    exact ha x a2 rfl

theorem CleanIn_append_headSafe {S : List (List Char)} {a b : List Char}
    (hS : ∀ w ∈ S, w ∈ leakSetL) (ha : CleanIn S a) (hb : CleanIn S b)
    (hhead : headSafe b) : CleanIn S (a ++ b) := by
  cases b with
  | nil => simpa using ha
  | cons c b2 =>
    exact CleanIn_append_sep hS (hhead c b2 rfl) ha (CleanIn_of_cons hb)

theorem numChar_fix {c : Char} (h : numChar c) : goLower c = c := by
  simp only [numChar, List.mem_cons, List.not_mem_nil, or_false] at h
  rcases h with rfl | rfl | rfl | rfl | rfl | rfl | rfl | rfl | rfl | rfl | rfl <;>
    decide

theorem numChar_not_letter {c : Char} (h : numChar c) :
    ¬ ('a' ≤ c ∧ c ≤ 'z') := by
  simp only [numChar, List.mem_cons, List.not_mem_nil, or_false] at h
  rcases h with rfl | rfl | rfl | rfl | rfl | rfl | rfl | rfl | rfl | rfl | rfl <;>
    decide

theorem lowerL_fixed {a : List Char} (h : ∀ c ∈ a, goLower c = c) :
    lowerL a = a := by
  induction a with
  | nil => rfl
  | cons c a2 ih =>
    simp only [lowerL, List.map_cons]
    rw [h c (List.mem_cons_self c a2)]
    have := ih fun d hd => h d (List.mem_cons.mpr (Or.inr hd))
    simp only [lowerL] at this
    rw [this]

/-- No needle occurrence can start inside or cover a run of number
characters: needles start with and contain letters. -/
theorem CleanIn_numRun_append {S : List (List Char)} {a rest : List Char}
    (hS : ∀ w ∈ S, w ∈ leakSetL) (ha : ∀ c ∈ a, numChar c)
    (hrest : CleanIn S rest) : CleanIn S (a ++ rest) := by
  intro w hw hi
  have hwT := hS w hw
  have hfix : lowerL a = a := lowerL_fixed fun c hc => numChar_fix (ha c hc)
  have hlow : lowerL (a ++ rest) = a ++ lowerL rest := by
    simp only [lowerL, List.map_append]
    rw [show List.map goLower a = lowerL a from rfl, hfix]
  rw [hlow] at hi
  rcases infix_append_decomp a w hi with h | h | ⟨w1, w2, heq, hne, hsuf, hpre⟩
  · obtain ⟨c, hc, hlet⟩ := needle_has_letter w hwT
    exact numChar_not_letter (ha c (h.subset hc)) hlet
  · exact hrest w hw h
  · obtain ⟨c, w1b, rfl⟩ := List.exists_cons_of_ne_nil hne
    have hca : c ∈ a := hsuf.subset (List.mem_cons_self _ _)
    have hcw : c ∈ w.take 1 := by rw [heq]; simp
    exact needle_head_not_num w hwT c hcw (ha c hca)

theorem digitChar_numChar (m : Nat) : numChar (digitChar m) := by
  unfold digitChar
  split_ifs <;> decide

theorem natDigitsAux_numChar :
    ∀ fuel n, ∀ c ∈ natDigitsAux fuel n, numChar c := by
  intro fuel
  induction fuel with
  | zero => intro n c hc; cases hc
  | succ f ih =>
    intro n c hc
    simp only [natDigitsAux] at hc
    by_cases h : n < 10
    · rw [if_pos h] at hc
      simp only [List.mem_singleton] at hc
      subst hc
      exact digitChar_numChar n
    · rw [if_neg h] at hc
      rcases List.mem_append.mp hc with h1 | h1
      · exact ih (n / 10) c h1
      · simp only [List.mem_singleton] at h1
        subst h1
        exact digitChar_numChar _

theorem intChars_numChar (i : Int) : ∀ c ∈ intChars i, numChar c := by
  intro c hc
  simp only [intChars] at hc
  split_ifs at hc with h
  · rcases List.mem_cons.mp hc with h1 | h1
    · subst h1; decide
    · exact natDigitsAux_numChar _ _ c h1
  · exact natDigitsAux_numChar _ _ c hc

theorem CleanIn_intChars_append {S : List (List Char)} {rest : List Char}
    (hS : ∀ w ∈ S, w ∈ leakSetL) (i : Int) (hrest : CleanIn S rest) :
    CleanIn S (intChars i ++ rest) :=
  CleanIn_numRun_append hS (intChars_numChar i) hrest

theorem escapeL_append (a b : List Char) :
    escapeL (a ++ b) = escapeL a ++ escapeL b := by
  induction a with
  | nil => rfl
  | cons c t ih => simp [escapeL, ih, List.append_assoc]

theorem escapeL_mono {a b : List Char} (h : a <:+: b) :
    escapeL a <:+: escapeL b := by
  obtain ⟨s, t, heq⟩ := h
  refine ⟨escapeL s, escapeL t, ?_⟩
  rw [← heq]
  simp [escapeL_append]

theorem escapeChar_numChar {c : Char} (h : numChar c) :
    escapeChar c = [c] := by
  simp only [numChar, List.mem_cons, List.not_mem_nil, or_false] at h
  rcases h with rfl | rfl | rfl | rfl | rfl | rfl | rfl | rfl | rfl | rfl | rfl <;>
    decide

theorem escapeL_fixed {a : List Char} (h : ∀ c ∈ a, escapeChar c = [c]) :
    escapeL a = a := by
  induction a with
  | nil => rfl
  | cons c t ih =>
    simp only [escapeL]
    rw [h c (List.mem_cons_self c t),
        ih fun d hd => h d (List.mem_cons.mpr (Or.inr hd))]
    rfl

theorem CleanIn_jstr_append {S : List (List Char)} {rest : List Char}
    (hS : ∀ w ∈ S, w ∈ leakSetL) (v : String)
    (hv : CleanIn S (escapeL v.data))
    (hrest : CleanIn S rest) : CleanIn S (jstr v ++ rest) := by
  have h1 : jstr v ++ rest = '"' :: (escapeL v.data ++ '"' :: rest) := by
    simp [jstr]
  rw [h1]
  exact CleanIn_cons_sep hS (by decide)
    (CleanIn_append_sep hS (by decide) hv hrest)

theorem jstr_ne_nil (v : String) : jstr v ≠ [] := by
  simp [jstr]

theorem headSafe_jstr (v : String) : headSafe (jstr v) := by
  intro c l2 h
  have h2 : jstr v = '"' :: (escapeL v.data ++ ['"']) := by simp [jstr]
  rw [h2] at h
  injection h with h1 _
  subst h1
  decide


/-! ## Per-renderer hygiene lemmas -/

/-- Lift a `decide`-checked literal fact from the full scan set. -/
theorem CleanIn_lit {S : List (List Char)} (hS : ∀ w ∈ S, w ∈ leakSetL)
    {L : List Char} (h : CleanIn leakSetL L) : CleanIn S L :=
  CleanIn_of_subset hS h

/-- Split a literal chunk before its final separator character. -/
theorem CleanIn_litend_append {S : List (List Char)}
    (hS : ∀ w ∈ S, w ∈ leakSetL) (L L1 : String) (c : Char) {Y : List Char}
    (heq : L.data = L1.data ++ [c]) (hc : sepOK c)
    (hL1 : CleanIn S L1.data) (hY : CleanIn S Y) :
    CleanIn S (L.data ++ Y) := by
  rw [heq, List.append_assoc]
  exact CleanIn_append_sep hS hc hL1 hY

/-- A key literal followed by a quoted string value. -/
theorem CleanIn_key_jstr_append {S : List (List Char)}
    (hS : ∀ w ∈ S, w ∈ leakSetL) (L v : String) {Y : List Char}
    (hL : CleanIn S L.data) (hv : CleanIn S (escapeL v.data))
    (hY : CleanIn S Y) :
    CleanIn S (L.data ++ (jstr v ++ Y)) :=
  CleanIn_append_headSafe hS hL (CleanIn_jstr_append hS v hv hY)
    (headSafe_append_left (jstr_ne_nil v) (headSafe_jstr v))

theorem CleanIn_renderBool_append {S : List (List Char)}
    (hS : ∀ w ∈ S, w ∈ leakSetL) (b : Bool) {Y : List Char}
    (hY : CleanIn S Y) (hhY : headSafe Y) :
    CleanIn S (renderBool b ++ Y) := by
  cases b <;> simp only [renderBool, if_true, if_false] <;>
    exact CleanIn_append_headSafe hS (CleanIn_lit hS (by decide)) hY hhY

theorem CleanIn_joinJStrs_append {S : List (List Char)}
    (hS : ∀ w ∈ S, w ∈ leakSetL) (l : List String) {Y : List Char}
    (hl : ∀ s ∈ l, CleanIn S (escapeL s.data)) (hY : CleanIn S Y) :
    CleanIn S (joinJStrs l ++ Y) := by
  induction l with
  | nil => simpa [joinJStrs] using hY
  | cons s t ih =>
    cases t with
    | nil =>
      simp only [joinJStrs]
      exact CleanIn_jstr_append hS s (hl s (List.mem_cons_self s [])) hY
    | cons r t2 =>
      have hjoin : joinJStrs (s :: r :: t2) ++ Y =
          jstr s ++ (',' :: (joinJStrs (r :: t2) ++ Y)) := by
        simp [joinJStrs, List.append_assoc]
      rw [hjoin]
      refine CleanIn_jstr_append hS s (hl s (List.mem_cons_self s _)) ?_
      refine CleanIn_cons_sep hS (by decide) ?_
      exact ih fun x hx => hl x (List.mem_cons.mpr (Or.inr hx))

theorem CleanIn_renderStrArray_append {S : List (List Char)}
    (hS : ∀ w ∈ S, w ∈ leakSetL) (l : List String) {Y : List Char}
    (hl : ∀ s ∈ l, CleanIn S (escapeL s.data)) (hY : CleanIn S Y) :
    CleanIn S (renderStrArray l ++ Y) := by
  have heq : renderStrArray l ++ Y = '[' :: (joinJStrs l ++ (']' :: Y)) := by
    simp [renderStrArray, List.append_assoc]
  rw [heq]
  exact CleanIn_cons_sep hS (by decide)
    (CleanIn_joinJStrs_append hS l hl (CleanIn_cons_sep hS (by decide) hY))

theorem renderStrArray_ne_nil (l : List String) : renderStrArray l ≠ [] := by
  simp [renderStrArray]

theorem headSafe_renderStrArray (l : List String) : headSafe (renderStrArray l) := by
  intro c l2 h
  have heq : renderStrArray l = '[' :: (joinJStrs l ++ [']']) := by
    simp [renderStrArray]
  rw [heq] at h
  injection h with h1 _
  subst h1
  decide

/-- An `omitempty` string-key segment in else-position. -/
theorem CleanIn_iteKeyStr_append {S : List (List Char)}
    (hS : ∀ w ∈ S, w ∈ leakSetL) (cond : Prop) [Decidable cond]
    (L v : String) {Y : List Char}
    (hL : CleanIn S L.data) (hv : CleanIn S (escapeL v.data))
    (hY : CleanIn S Y) :
    CleanIn S ((if cond then [] else L.data ++ jstr v) ++ Y) := by
  split_ifs with h
  · simpa using hY
  · rw [List.append_assoc]
    exact CleanIn_key_jstr_append hS L v hL hv hY

/-- An `omitempty` numeric-key segment in else-position. -/
theorem CleanIn_iteKeyNum_append {S : List (List Char)}
    (hS : ∀ w ∈ S, w ∈ leakSetL) (cond : Prop) [Decidable cond]
    (L L1 : String) (c : Char) (i : Int) {Y : List Char}
    (heq : L.data = L1.data ++ [c]) (hc : sepOK c)
    (hL1 : CleanIn S L1.data) (hY : CleanIn S Y) :
    CleanIn S ((if cond then [] else L.data ++ intChars i) ++ Y) := by
  split_ifs with h
  · simpa using hY
  · rw [List.append_assoc]
    exact CleanIn_litend_append hS L L1 c heq hc hL1
      (CleanIn_intChars_append hS i hY)

/-- An `omitempty` string-array-key segment in else-position. -/
theorem CleanIn_iteKeyArr_append {S : List (List Char)}
    (hS : ∀ w ∈ S, w ∈ leakSetL) (cond : Prop) [Decidable cond]
    (L : String) (l : List String) {Y : List Char}
    (hL : CleanIn S L.data) (hl : ∀ s ∈ l, CleanIn S (escapeL s.data))
    (hY : CleanIn S Y) :
    CleanIn S ((if cond then [] else L.data ++ renderStrArray l) ++ Y) := by
  split_ifs with h
  · simpa using hY
  · rw [List.append_assoc]
    exact CleanIn_append_headSafe hS hL
      (CleanIn_renderStrArray_append hS l hl hY)
      (headSafe_append_left (renderStrArray_ne_nil l) (headSafe_renderStrArray l))

theorem headSafe_ite (cond : Prop) [Decidable cond] {a : List Char}
    (ha : headSafe a) : headSafe (if cond then [] else a) := by
  split_ifs
  · exact headSafe_nil
  · exact ha

/-- An optional segment rendered through `Option.elim`. -/
theorem CleanIn_elimSeg_append {α : Type} {S : List (List Char)}
    (o : Option α) (f : α → List Char) {Y : List Char}
    (h : ∀ x, o = some x → CleanIn S (f x ++ Y)) (hY : CleanIn S Y) :
    CleanIn S (o.elim [] f ++ Y) := by
  cases o with
  | none => simpa using hY
  | some x => exact h x rfl

theorem headSafe_elimSeg {α : Type} (o : Option α) (f : α → List Char)
    (hf : ∀ x, headSafe (f x)) : headSafe (o.elim [] f) := by
  cases o with
  | none => exact headSafe_nil
  | some x => exact hf x

/-! ### Clean-field predicates for the structural config -/

/-- Cleanliness of the escaped form of each settings object's strings
(strings reach the document only through `jstr`, i.e. escaped). -/
def settingsClean (S : List (List Char)) : XraySettings → Prop
  | .vlessServer u => CleanIn S (escapeL u.data)
  | .emptyObj => True
  | .socks => True
  | .http => True
  | .vlessClient a _ u => CleanIn S (escapeL a.data) ∧ CleanIn S (escapeL u.data)

/-- Cleanliness of the escaped string fields of a reality stream. -/
def realityClean (S : List (List Char)) (r : xrayRealityStream) : Prop :=
  CleanIn S (escapeL r.dest.data) ∧
  (∀ s ∈ r.serverNames, CleanIn S (escapeL s.data)) ∧
  CleanIn S (escapeL r.privateKey.data) ∧
  (∀ s ∈ r.shortIds, CleanIn S (escapeL s.data)) ∧
  CleanIn S (escapeL r.serverName.data) ∧
  CleanIn S (escapeL r.fingerprint.data) ∧
  CleanIn S (escapeL r.publicKey.data) ∧ CleanIn S (escapeL r.shortId.data)

/-- Cleanliness of the escaped string fields of a stream block. -/
def streamClean (S : List (List Char)) (st : xrayStream) : Prop :=
  CleanIn S (escapeL st.network.data) ∧ CleanIn S (escapeL st.security.data) ∧
  (∀ r, st.reality = some r → realityClean S r) ∧
  (∀ t, st.tls = some t → CleanIn S (escapeL t.serverName.data)) ∧
  (∀ w, st.ws = some w → CleanIn S (escapeL w.path.data))

/-- Cleanliness of the escaped string fields of an inbound. -/
def inboundClean (S : List (List Char)) (ib : xrayInbound) : Prop :=
  CleanIn S (escapeL ib.tag.data) ∧ CleanIn S (escapeL ib.listen.data) ∧
  CleanIn S (escapeL ib.protocol.data) ∧ settingsClean S ib.settings ∧
  (∀ st, ib.stream = some st → streamClean S st)

/-- Cleanliness of the escaped string fields of an outbound. -/
def outboundClean (S : List (List Char)) (o : xrayOutbound) : Prop :=
  CleanIn S (escapeL o.tag.data) ∧ CleanIn S (escapeL o.protocol.data) ∧
  (∀ s, o.settings = some s → settingsClean S s) ∧
  (∀ st, o.stream = some st → streamClean S st)

/-- Cleanliness of the escaped form of every config-supplied string in a
document. -/
def fullClean (S : List (List Char)) (c : xrayFullConfig) : Prop :=
  (∀ lg, c.log = some lg → CleanIn S (escapeL lg.loglevel.data)) ∧
  (∀ ib ∈ c.inbounds, inboundClean S ib) ∧
  (∀ o ∈ c.outbounds, outboundClean S o)

theorem CleanIn_renderWS_append {S : List (List Char)}
    (hS : ∀ w ∈ S, w ∈ leakSetL) (w : xrayWSStream) {Y : List Char}
    (hp : CleanIn S (escapeL w.path.data)) (hY : CleanIn S Y) :
    CleanIn S (renderWS w ++ Y) := by
  have heq : renderWS w ++ Y =
      "\x7b\"path\":".data ++ (jstr w.path ++ ('\x7d' :: Y)) := by
    simp [renderWS, List.append_assoc]
  rw [heq]
  exact CleanIn_key_jstr_append hS _ _ (CleanIn_lit hS (by decide)) hp
    (CleanIn_cons_sep hS (by decide) hY)

theorem CleanIn_renderTLS_append {S : List (List Char)}
    (hS : ∀ w ∈ S, w ∈ leakSetL) (t : xrayTLSStream) {Y : List Char}
    (ht : CleanIn S (escapeL t.serverName.data)) (hY : CleanIn S Y) :
    CleanIn S (renderTLS t ++ Y) := by
  simp only [renderTLS]
  split_ifs with h
  · exact CleanIn_litend_append hS "\x7b\x7d" "\x7b" '\x7d' rfl (by decide)
      (CleanIn_lit hS (by decide)) hY
  · have heq : ("\x7b\"serverName\":".data ++ jstr t.serverName ++ ['\x7d']) ++ Y =
        "\x7b\"serverName\":".data ++ (jstr t.serverName ++ ('\x7d' :: Y)) := by
      simp [List.append_assoc]
    rw [heq]
    exact CleanIn_key_jstr_append hS _ _ (CleanIn_lit hS (by decide)) ht
      (CleanIn_cons_sep hS (by decide) hY)

theorem CleanIn_renderReality_append {S : List (List Char)}
    (hS : ∀ w ∈ S, w ∈ leakSetL) (r : xrayRealityStream) {Y : List Char}
    (h : realityClean S r) (hY : CleanIn S Y) :
    CleanIn S (renderReality r ++ Y) := by
  obtain ⟨hdest, hsn, hpk, hsi, hsrv, hfp, hpub, hsid⟩ := h
  simp only [renderReality, List.append_assoc, List.singleton_append]
  refine CleanIn_litend_append hS "\x7b\"show\":" "\x7b\"show\"" ':' rfl (by decide)
    (CleanIn_lit hS (by decide)) ?_
  refine CleanIn_renderBool_append hS _ ?_ ?_
  · apply CleanIn_iteKeyStr_append hS _ _ _ (CleanIn_lit hS (by decide)) hdest
    apply CleanIn_iteKeyNum_append hS _ ",\"xver\":" ",\"xver\"" ':' _ rfl
      (by decide) (CleanIn_lit hS (by decide))
    apply CleanIn_iteKeyArr_append hS _ _ _ (CleanIn_lit hS (by decide)) hsn
    apply CleanIn_iteKeyStr_append hS _ _ _ (CleanIn_lit hS (by decide)) hpk
    apply CleanIn_iteKeyArr_append hS _ _ _ (CleanIn_lit hS (by decide)) hsi
    apply CleanIn_iteKeyStr_append hS _ _ _ (CleanIn_lit hS (by decide)) hsrv
    apply CleanIn_iteKeyStr_append hS _ _ _ (CleanIn_lit hS (by decide)) hfp
    apply CleanIn_iteKeyStr_append hS _ _ _ (CleanIn_lit hS (by decide)) hpub
    apply CleanIn_iteKeyStr_append hS _ _ _ (CleanIn_lit hS (by decide)) hsid
    exact CleanIn_cons_sep hS (by decide) hY
  · refine headSafe_append (headSafe_ite _ (headSafe_append_left (by decide)
      (headSafe_cons ',' (by decide)))) ?_
    refine headSafe_append (headSafe_ite _ (headSafe_append_left (by decide)
      (headSafe_cons ',' (by decide)))) ?_
    refine headSafe_append (headSafe_ite _ (headSafe_append_left (by decide)
      (headSafe_cons ',' (by decide)))) ?_
    refine headSafe_append (headSafe_ite _ (headSafe_append_left (by decide)
      (headSafe_cons ',' (by decide)))) ?_
    refine headSafe_append (headSafe_ite _ (headSafe_append_left (by decide)
      (headSafe_cons ',' (by decide)))) ?_
    refine headSafe_append (headSafe_ite _ (headSafe_append_left (by decide)
      (headSafe_cons ',' (by decide)))) ?_
    refine headSafe_append (headSafe_ite _ (headSafe_append_left (by decide)
      (headSafe_cons ',' (by decide)))) ?_
    refine headSafe_append (headSafe_ite _ (headSafe_append_left (by decide)
      (headSafe_cons ',' (by decide)))) ?_
    refine headSafe_append (headSafe_ite _ (headSafe_append_left (by decide)
      (headSafe_cons ',' (by decide)))) ?_
    exact headSafe_cons '\x7d' (by decide)

theorem CleanIn_renderSettings_append {S : List (List Char)}
    (hS : ∀ w ∈ S, w ∈ leakSetL) (st : XraySettings) {Y : List Char}
    (h : settingsClean S st) (hY : CleanIn S Y) :
    CleanIn S (renderSettings st ++ Y) := by
  cases st with
  | vlessServer u =>
    have heq : renderSettings (.vlessServer u) ++ Y =
        "\x7b\"clients\":[\x7b\"flow\":\"xtls-rprx-vision\",\"id\":".data ++
          (jstr u ++ ("\x7d],\"decryption\":\"none\"\x7d".data ++ Y)) := by
      simp [renderSettings, List.append_assoc]
    rw [heq]
    refine CleanIn_key_jstr_append hS _ _ (CleanIn_lit hS (by decide)) h ?_
    exact CleanIn_litend_append hS "\x7d],\"decryption\":\"none\"\x7d"
      "\x7d],\"decryption\":\"none\"" '\x7d' rfl (by decide)
      (CleanIn_lit hS (by decide)) hY
  | emptyObj =>
    exact CleanIn_litend_append hS "\x7b\x7d" "\x7b" '\x7d' rfl (by decide)
      (CleanIn_lit hS (by decide)) hY
  | socks =>
    exact CleanIn_litend_append hS "\x7b\"udp\":true\x7d" "\x7b\"udp\":true"
      '\x7d' rfl (by decide) (CleanIn_lit hS (by decide)) hY
  | http =>
    exact CleanIn_litend_append hS "\x7b\"allowTransparent\":false\x7d"
      "\x7b\"allowTransparent\":false" '\x7d' rfl (by decide)
      (CleanIn_lit hS (by decide)) hY
  | vlessClient a p u =>
    obtain ⟨ha, hu⟩ := h
    have heq : renderSettings (.vlessClient a p u) ++ Y =
        "\x7b\"vnext\":[\x7b\"address\":".data ++
          (jstr a ++ (",\"port\":".data ++ (intChars p ++
            (",\"users\":[\x7b\"encryption\":\"none\",\"flow\":\"xtls-rprx-vision\",\"id\":".data ++
              (jstr u ++ ("\x7d]\x7d]\x7d".data ++ Y)))))) := by
      simp [renderSettings, List.append_assoc]
    rw [heq]
    refine CleanIn_key_jstr_append hS _ _ (CleanIn_lit hS (by decide)) ha ?_
    refine CleanIn_litend_append hS ",\"port\":" ",\"port\"" ':' rfl (by decide)
      (CleanIn_lit hS (by decide)) ?_
    refine CleanIn_intChars_append hS p ?_
    refine CleanIn_key_jstr_append hS _ _ (CleanIn_lit hS (by decide)) hu ?_
    exact CleanIn_litend_append hS "\x7d]\x7d]\x7d" "\x7d]\x7d]" '\x7d' rfl
      (by decide) (CleanIn_lit hS (by decide)) hY

theorem CleanIn_renderStream_append {S : List (List Char)}
    (hS : ∀ w ∈ S, w ∈ leakSetL) (st : xrayStream) {Y : List Char}
    (h : streamClean S st) (hY : CleanIn S Y) :
    CleanIn S (renderStream st ++ Y) := by
  obtain ⟨hn, hsec, hr, ht, hw⟩ := h
  simp only [renderStream, List.append_assoc, List.singleton_append]
  refine CleanIn_key_jstr_append hS _ _ (CleanIn_lit hS (by decide)) hn ?_
  refine CleanIn_key_jstr_append hS _ _ (CleanIn_lit hS (by decide)) hsec ?_
  have hend : CleanIn S ('\x7d' :: Y) := CleanIn_cons_sep hS (by decide) hY
  have hws : CleanIn S
      (st.ws.elim [] (fun w => ",\"wsSettings\":".data ++ renderWS w) ++
        ('\x7d' :: Y)) := by
    refine CleanIn_elimSeg_append _ _ ?_ hend
    intro x hx
    rw [List.append_assoc]
    refine CleanIn_litend_append hS ",\"wsSettings\":" ",\"wsSettings\"" ':' rfl
      (by decide) (CleanIn_lit hS (by decide)) ?_
    exact CleanIn_renderWS_append hS x (hw x hx) hend
  have htls : CleanIn S
      (st.tls.elim [] (fun t => ",\"tlsSettings\":".data ++ renderTLS t) ++
        (st.ws.elim [] (fun w => ",\"wsSettings\":".data ++ renderWS w) ++
          ('\x7d' :: Y))) := by
    refine CleanIn_elimSeg_append _ _ ?_ hws
    intro x hx
    rw [List.append_assoc]
    refine CleanIn_litend_append hS ",\"tlsSettings\":" ",\"tlsSettings\"" ':' rfl
      (by decide) (CleanIn_lit hS (by decide)) ?_
    exact CleanIn_renderTLS_append hS x (ht x hx) hws
  refine CleanIn_elimSeg_append _ _ ?_ htls
  intro x hx
  rw [List.append_assoc]
  refine CleanIn_litend_append hS ",\"realitySettings\":" ",\"realitySettings\""
    ':' rfl (by decide) (CleanIn_lit hS (by decide)) ?_
  exact CleanIn_renderReality_append hS x (hr x hx) htls

theorem CleanIn_renderInbound_append {S : List (List Char)}
    (hS : ∀ w ∈ S, w ∈ leakSetL) (ib : xrayInbound) {Y : List Char}
    (h : inboundClean S ib) (hY : CleanIn S Y) :
    CleanIn S (renderInbound ib ++ Y) := by
  obtain ⟨htag, hlisten, hproto, hset, hstream⟩ := h
  simp only [renderInbound, List.append_assoc, List.singleton_append]
  have hend : CleanIn S ('\x7d' :: Y) := CleanIn_cons_sep hS (by decide) hY
  refine CleanIn_key_jstr_append hS _ _ (CleanIn_lit hS (by decide)) htag ?_
  refine CleanIn_iteKeyStr_append hS _ _ _ (CleanIn_lit hS (by decide)) hlisten ?_
  refine CleanIn_litend_append hS ",\"port\":" ",\"port\"" ':' rfl (by decide)
    (CleanIn_lit hS (by decide)) ?_
  refine CleanIn_intChars_append hS _ ?_
  refine CleanIn_key_jstr_append hS _ _ (CleanIn_lit hS (by decide)) hproto ?_
  refine CleanIn_litend_append hS ",\"settings\":" ",\"settings\"" ':' rfl
    (by decide) (CleanIn_lit hS (by decide)) ?_
  refine CleanIn_renderSettings_append hS _ hset ?_
  refine CleanIn_elimSeg_append _ _ ?_ hend
  intro x hx
  rw [List.append_assoc]
  refine CleanIn_litend_append hS ",\"streamSettings\":" ",\"streamSettings\""
    ':' rfl (by decide) (CleanIn_lit hS (by decide)) ?_
  exact CleanIn_renderStream_append hS x (hstream x hx) hend

theorem CleanIn_renderOutbound_append {S : List (List Char)}
    (hS : ∀ w ∈ S, w ∈ leakSetL) (o : xrayOutbound) {Y : List Char}
    (h : outboundClean S o) (hY : CleanIn S Y) :
    CleanIn S (renderOutbound o ++ Y) := by
  obtain ⟨htag, hproto, hset, hstream⟩ := h
  simp only [renderOutbound, List.append_assoc, List.singleton_append]
  have hend : CleanIn S ('\x7d' :: Y) := CleanIn_cons_sep hS (by decide) hY
  refine CleanIn_key_jstr_append hS _ _ (CleanIn_lit hS (by decide)) htag ?_
  refine CleanIn_key_jstr_append hS _ _ (CleanIn_lit hS (by decide)) hproto ?_
  have hstr : CleanIn S
      (o.stream.elim [] (fun st => ",\"streamSettings\":".data ++ renderStream st) ++
        ('\x7d' :: Y)) := by
    refine CleanIn_elimSeg_append _ _ ?_ hend
    intro x hx
    rw [List.append_assoc]
    refine CleanIn_litend_append hS ",\"streamSettings\":" ",\"streamSettings\""
      ':' rfl (by decide) (CleanIn_lit hS (by decide)) ?_
    exact CleanIn_renderStream_append hS x (hstream x hx) hend
  refine CleanIn_elimSeg_append _ _ ?_ hstr
  intro x hx
  rw [List.append_assoc]
  refine CleanIn_litend_append hS ",\"settings\":" ",\"settings\"" ':' rfl
    (by decide) (CleanIn_lit hS (by decide)) ?_
  exact CleanIn_renderSettings_append hS x (hset x hx) hstr

theorem CleanIn_joinRenders_append {α : Type} {S : List (List Char)}
    (hS : ∀ w ∈ S, w ∈ leakSetL) (f : α → List Char) (l : List α) {Y : List Char}
    (hf : ∀ x ∈ l, ∀ Z, CleanIn S Z → CleanIn S (f x ++ Z))
    (hY : CleanIn S Y) : CleanIn S (joinRenders f l ++ Y) := by
  induction l with
  | nil => simpa [joinRenders] using hY
  | cons x t ih =>
    cases t with
    | nil =>
      simp only [joinRenders]
      exact hf x (List.mem_cons_self x []) Y hY
    | cons r t2 =>
      have heq : joinRenders f (x :: r :: t2) ++ Y =
          f x ++ (',' :: (joinRenders f (r :: t2) ++ Y)) := by
        simp [joinRenders, List.append_assoc]
      rw [heq]
      refine hf x (List.mem_cons_self x _) _ ?_
      refine CleanIn_cons_sep hS (by decide) ?_
      exact ih fun z hz Z hZ => hf z (List.mem_cons.mpr (Or.inr hz)) Z hZ

/-- Main hygiene theorem of the renderer: a document whose config-supplied
strings are clean renders to a clean byte sequence. -/
theorem CleanIn_renderFull {S : List (List Char)}
    (hS : ∀ w ∈ S, w ∈ leakSetL) (c : xrayFullConfig) (h : fullClean S c) :
    CleanIn S (renderFull c) := by
  obtain ⟨hlog, hin, hout⟩ := h
  simp only [renderFull, List.append_assoc]
  refine CleanIn_cons_sep hS (by decide) ?_
  have h5 : CleanIn S (joinRenders renderOutbound c.outbounds ++ "]\x7d".data) :=
    CleanIn_joinRenders_append hS _ _
      (fun o ho Z hZ => CleanIn_renderOutbound_append hS o (hout o ho) hZ)
      (CleanIn_lit hS (by decide))
  have h4 : CleanIn S ("],\"outbounds\":[".data ++
      (joinRenders renderOutbound c.outbounds ++ "]\x7d".data)) :=
    CleanIn_litend_append hS "],\"outbounds\":[" "],\"outbounds\":" '[' rfl
      (by decide) (CleanIn_lit hS (by decide)) h5
  have h3 : CleanIn S (joinRenders renderInbound c.inbounds ++
      ("],\"outbounds\":[".data ++
        (joinRenders renderOutbound c.outbounds ++ "]\x7d".data))) :=
    CleanIn_joinRenders_append hS _ _
      (fun ib hib Z hZ => CleanIn_renderInbound_append hS ib (hin ib hib) hZ) h4
  have h2 : CleanIn S ("\"inbounds\":[".data ++
      (joinRenders renderInbound c.inbounds ++
        ("],\"outbounds\":[".data ++
          (joinRenders renderOutbound c.outbounds ++ "]\x7d".data)))) :=
    CleanIn_litend_append hS "\"inbounds\":[" "\"inbounds\":" '[' rfl
      (by decide) (CleanIn_lit hS (by decide)) h3
  refine CleanIn_elimSeg_append _ _ ?_ h2
  intro lg hlg
  simp only [List.append_assoc]
  refine CleanIn_key_jstr_append hS _ _ (CleanIn_lit hS (by decide))
    (hlog lg hlg) ?_
  exact CleanIn_litend_append hS "\x7d," "\x7d" ',' rfl (by decide)
    (CleanIn_lit hS (by decide)) h2

/-! ## From config fields to document cleanliness -/

theorem lowerL_cons (c : Char) (l : List Char) :
    lowerL (c :: l) = goLower c :: lowerL l := rfl

theorem lowerL_append (a b : List Char) :
    lowerL (a ++ b) = lowerL a ++ lowerL b := List.map_append goLower a b

theorem infix_extend_left {w b : List Char} (a : List Char)
    (h : w <:+: b) : w <:+: a ++ b := by
  obtain ⟨s, t, heq⟩ := h
  refine ⟨a ++ s, t, ?_⟩
  rw [← heq]
  simp [List.append_assoc]

theorem infix_extend_right {w a : List Char} (b : List Char)
    (h : w <:+: a) : w <:+: a ++ b := by
  obtain ⟨s, t, heq⟩ := h
  refine ⟨s, t ++ b, ?_⟩
  rw [← heq]
  simp [List.append_assoc]

theorem infix_extend_cons {w b : List Char} (c : Char)
    (h : w <:+: b) : w <:+: c :: b :=
  infix_extend_left [c] h

theorem lowerL_mono {a b : List Char} (h : a <:+: b) :
    lowerL a <:+: lowerL b := by
  obtain ⟨s, t, heq⟩ := h
  refine ⟨lowerL s, lowerL t, ?_⟩
  rw [← heq]
  simp [lowerL]

theorem CleanIn_of_infix {S : List (List Char)} {a b : List Char}
    (hab : a <:+: b) (hb : CleanIn S b) : CleanIn S a :=
  fun w hw hwa => hb w hw (hwa.trans (lowerL_mono hab))

/-- A successful `splitAtLastColon` recomposes the input around its last
colon. -/
theorem splitAtLastColon_eq :
    ∀ (l h0 p : List Char), splitAtLastColon l = some (h0, p) →
      l = h0 ++ ':' :: p := by
  intro l
  induction l with
  | nil => intro h0 p h; cases h
  | cons c rest ih =>
    intro h0 p h
    simp only [splitAtLastColon] at h
    cases hr : splitAtLastColon rest with
    | some q =>
      obtain ⟨h1, p1⟩ := q
      rw [hr] at h
      injection h with h
      injection h with he1 he2
      rw [he2] at hr
      rw [← he1, List.cons_append]
      exact congrArg (List.cons c) (ih h1 p hr)
    | none =>
      rw [hr] at h
      by_cases hc : c = ':'
      · rw [if_pos hc] at h
        injection h with h
        injection h with he1 he2
        subst hc
        rw [← he1, ← he2]
        rfl
      · rw [if_neg hc] at h
        cases h

/-- The host half returned by `splitHostPort` is a slice of the input (or the
fixed literal `0.0.0.0`), so cleanliness of the escaped address transfers to
its escaped form. -/
theorem splitHostPort_host_clean {S : List (List Char)}
    (hS : ∀ w ∈ S, w ∈ leakSetL) (addr host : String) (port : Int)
    (h : splitHostPort addr = .ok (host, port))
    (ha : CleanIn S (escapeL addr.data)) :
    CleanIn S (escapeL host.data) := by
  simp only [splitHostPort] at h
  cases hd : addr.data with
  | nil => rw [hd] at h; cases h
  | cons c rest =>
    simp only [hd] at h
    by_cases hc : c = ':'
    · rw [if_pos hc] at h
      cases hat : atoi rest with
      | some pt =>
        rw [hat] at h
        injection h with h
        injection h with h1 _
        rw [← h1]
        exact CleanIn_lit hS (by decide)
      | none => rw [hat] at h; cases h
    · rw [if_neg hc] at h
      cases hsp : splitAtLastColon (c :: rest) with
      | none => rw [hsp] at h; cases h
      | some q =>
        obtain ⟨h0, p0⟩ := q
        simp only [hsp] at h
        cases hat : atoi p0 with
        | none => simp only [hat] at h; cases h
        | some pt =>
          simp only [hat] at h
          injection h with h
          injection h with h1 _
          have hrec := splitAtLastColon_eq (c :: rest) h0 p0 hsp
          have hinf : h0 <:+: addr.data := by
            refine ⟨[], ':' :: p0, ?_⟩
            rw [hd, hrec]
            simp
          rw [← h1]
          exact CleanIn_of_infix (escapeL_mono hinf) ha

/-- The host half returned by the total `parseServerAddr` is the input itself
or a slice of it. -/
theorem parseServerAddr_host_clean {S : List (List Char)}
    (addr host : String) (port : Int)
    (h : parseServerAddr addr = (host, port))
    (ha : CleanIn S (escapeL addr.data)) :
    CleanIn S (escapeL host.data) := by
  simp only [parseServerAddr] at h
  cases hsp : splitAtLastColon addr.data with
  | none =>
    rw [hsp] at h
    injection h with h1 _
    rw [← h1]
    exact ha
  | some q =>
    obtain ⟨h0, p0⟩ := q
    simp only [hsp] at h
    cases hat : atoi p0 with
    | none =>
      simp only [hat] at h
      injection h with h1 _
      rw [← h1]
      exact ha
    | some pt =>
      simp only [hat] at h
      injection h with h1 _
      have hrec := splitAtLastColon_eq addr.data h0 p0 hsp
      have hinf : h0 <:+: addr.data := by
        refine ⟨[], ':' :: p0, ?_⟩
        rw [hrec]
        simp
      rw [← h1]
      exact CleanIn_of_infix (escapeL_mono hinf) ha

theorem CleanIn_empty {S : List (List Char)}
    (hS : ∀ w ∈ S, w ∈ leakSetL) : CleanIn S ("" : String).data :=
  CleanIn_nil hS

theorem CleanIn_numRun {S : List (List Char)} {a : List Char}
    (hS : ∀ w ∈ S, w ∈ leakSetL) (ha : ∀ c ∈ a, numChar c) : CleanIn S a := by
  have h := CleanIn_numRun_append hS ha (CleanIn_nil hS)
  simpa using h

theorem natDigits_numChar (n : Nat) : ∀ c ∈ natDigits n, numChar c :=
  fun c hc => natDigitsAux_numChar (n + 1) n c hc

/-- The synthetic fallback tag only interleaves clean pieces with `-`, and
its literal and digit parts are escape-free. -/
theorem fallbackTag_clean {S : List (List Char)}
    (hS : ∀ w ∈ S, w ∈ leakSetL) (p : String) (i : Nat)
    (hp : CleanIn S (escapeL p.data)) :
    CleanIn S (escapeL ("fallback-" ++ p ++ "-" ++
      String.mk (natDigits i)).data) := by
  have hdig : escapeL (natDigits i) = natDigits i :=
    escapeL_fixed fun c hc => escapeChar_numChar (natDigits_numChar i c hc)
  have heq : escapeL ("fallback-" ++ p ++ "-" ++
        String.mk (natDigits i)).data =
      "fallback".data ++ '-' :: (escapeL p.data ++ '-' :: natDigits i) := by
    have h1 : ("fallback-" ++ p ++ "-" ++ String.mk (natDigits i)).data =
        "fallback-".data ++ p.data ++ "-".data ++ natDigits i := by
      simp [String.data_append]
    rw [h1]
    simp only [escapeL_append, hdig]
    have h2 : escapeL ("fallback-" : String).data =
        "fallback".data ++ ['-'] := by decide
    have h3 : escapeL ("-" : String).data = ['-'] := by decide
    rw [h2, h3]
    simp [List.append_assoc, List.singleton_append]
  rw [heq]
  exact CleanIn_append_sep hS (by decide) (CleanIn_lit hS (by decide))
    (CleanIn_append_sep hS (by decide) hp
      (CleanIn_numRun hS (natDigits_numChar i)))

/-- The reality `dest` field appends the fixed, escape-free `:443` suffix to
the SNI. -/
theorem destClean {S : List (List Char)}
    (hS : ∀ w ∈ S, w ∈ leakSetL) (sni : String)
    (hs : CleanIn S (escapeL sni.data)) :
    CleanIn S (escapeL (sni ++ ":443").data) := by
  have heq : escapeL (sni ++ ":443").data =
      escapeL sni.data ++ ':' :: "443".data := by
    rw [String.data_append, escapeL_append]
    exact congrArg (fun x => escapeL sni.data ++ x)
      (by decide : escapeL (":443" : String).data = ':' :: "443".data)
  rw [heq]
  exact CleanIn_append_sep hS (by decide) hs (CleanIn_lit hS (by decide))

theorem CleanIn_litS {S : List (List Char)} (hS : ∀ w ∈ S, w ∈ leakSetL)
    (v : String) (h : CleanIn leakSetL (escapeL v.data)) :
    CleanIn S (escapeL v.data) :=
  CleanIn_of_subset hS h

/-- Every inbound produced by the fallback loop has clean string fields when
the corresponding `FallbackConfig` fields are clean. -/
theorem buildFallbacks_clean {S : List (List Char)}
    (hS : ∀ w ∈ S, w ∈ leakSetL) :
    ∀ (i : Nat) (fbs : List FallbackConfig) (out : List xrayInbound),
      (∀ fb ∈ fbs, CleanIn S (escapeL fb.protocol.data) ∧
        CleanIn S (escapeL fb.listen.data) ∧
        CleanIn S (escapeL fb.path.data)) →
      buildFallbacks i fbs = .ok out → ∀ ib ∈ out, inboundClean S ib := by
  intro i fbs
  induction fbs generalizing i with
  | nil =>
    intro out _ h ib hib
    simp only [buildFallbacks] at h
    injection h with h
    subst h
    cases hib
  | cons fb rest ih =>
    intro out hf h ib hib
    simp only [buildFallbacks] at h
    cases hsp : splitHostPort fb.listen with
    | error e => simp only [hsp] at h; cases h
    | ok q =>
      obtain ⟨fbH, fbP⟩ := q
      simp only [hsp] at h
      cases hr : buildFallbacks (i + 1) rest with
      | error e => simp only [hr] at h; cases h
      | ok tail =>
        simp only [hr] at h
        injection h with h
        subst h
        obtain ⟨hfp, hfl, hfpath⟩ := hf fb (List.mem_cons_self _ _)
        rcases List.mem_cons.mp hib with rfl | hib2
        · refine ⟨fallbackTag_clean hS _ _ hfp,
                  splitHostPort_host_clean hS _ _ _ hsp hfl,
                  hfp, trivial, ?_⟩
          intro st hst
          by_cases ht : fb.transport = "ws"
          · rw [if_pos ht] at hst
            injection hst with hst
            subst hst
            refine ⟨CleanIn_litS hS "ws" (by decide),
                    CleanIn_litS hS "tls" (by decide), ?_, ?_, ?_⟩
            · intro r hr2; cases hr2
            · intro t ht2; cases ht2
            · intro w hw2
              injection hw2 with hw2
              subst hw2
              exact hfpath
          · rw [if_neg ht] at hst
            cases hst
        · exact ih (i + 1) tail
            (fun z hz => hf z (List.mem_cons.mpr (Or.inr hz))) hr ib hib2

/-- `BuildServerJSON` propagates cleanliness of the config's string fields to
every string field of the document. -/
theorem serverBuild_fullClean {S : List (List Char)}
    (hS : ∀ w ∈ S, w ∈ leakSetL) (cfg : Config) (conf : xrayFullConfig)
    (hlisten : CleanIn S (escapeL cfg.listen.data))
    (huuid : CleanIn S (escapeL cfg.uuid.data))
    (hsni : CleanIn S (escapeL cfg.reality.sni.data))
    (hpk : CleanIn S (escapeL cfg.reality.privateKey.data))
    (hids : ∀ s ∈ cfg.reality.shortIDs, CleanIn S (escapeL s.data))
    (hlog : CleanIn S (escapeL cfg.logLevel.data))
    (hfb : ∀ fb ∈ cfg.fallbacks, CleanIn S (escapeL fb.protocol.data) ∧
           CleanIn S (escapeL fb.listen.data) ∧
           CleanIn S (escapeL fb.path.data))
    (h : BuildServerJSON (some cfg) = .ok conf) :
    fullClean S conf := by
  simp only [BuildServerJSON] at h
  cases hsp : splitHostPort cfg.listen with
  | error e => simp only [hsp] at h; cases h
  | ok q =>
    obtain ⟨host, port⟩ := q
    simp only [hsp] at h
    cases hfbs : buildFallbacks 0 cfg.fallbacks with
    | error e => simp only [hfbs] at h; cases h
    | ok fbs =>
      simp only [hfbs] at h
      injection h with h
      subst h
      refine ⟨?_, ?_, ?_⟩
      · intro lg hlg
        injection hlg with hlg
        subst hlg
        simp only [coalesce]
        split
        · exact hlog
        · exact CleanIn_lit hS (by decide)
      · intro ib hib
        rcases List.mem_cons.mp hib with rfl | hib2
        · refine ⟨CleanIn_litS hS "vless-reality" (by decide),
                  splitHostPort_host_clean hS _ _ _ hsp hlisten,
                  CleanIn_litS hS "vless" (by decide), huuid, ?_⟩
          intro st hst
          injection hst with hst
          subst hst
          refine ⟨CleanIn_litS hS "tcp" (by decide),
                  CleanIn_litS hS "reality" (by decide), ?_, ?_, ?_⟩
          · intro r hr
            injection hr with hr
            subst hr
            refine ⟨destClean hS _ hsni, ?_, hpk, ?_, CleanIn_empty hS,
                    CleanIn_empty hS, CleanIn_empty hS, CleanIn_empty hS⟩
            · intro s hs
              simp only [List.mem_singleton] at hs
              subst hs
              exact hsni
            · intro s hs
              split at hs
              · simp only [List.mem_singleton] at hs
                subst hs
                exact CleanIn_empty hS
              · exact hids s hs
          · intro t ht; cases ht
          · intro w hw; cases hw
        · exact buildFallbacks_clean hS 0 cfg.fallbacks fbs hfb hfbs ib hib2
      · intro o ho
        rcases List.mem_cons.mp ho with rfl | ho2
        · refine ⟨CleanIn_litS hS "direct" (by decide),
                  CleanIn_litS hS "freedom" (by decide), ?_, ?_⟩
          · intro s hs; cases hs
          · intro st hst; cases hst
        · rcases List.mem_cons.mp ho2 with rfl | ho3
          · refine ⟨CleanIn_litS hS "block" (by decide),
                    CleanIn_litS hS "blackhole" (by decide), ?_, ?_⟩
            · intro s hs; cases hs
            · intro st hst; cases hst
          · cases ho3

theorem socksIn_clean {S : List (List Char)}
    (hS : ∀ w ∈ S, w ∈ leakSetL) (lh : String) (lp : Int)
    (hlh : CleanIn S (escapeL lh.data)) :
    inboundClean S { tag := "socks-in", listen := lh, port := lp,
                     protocol := "socks", settings := .socks, stream := none } := by
  refine ⟨CleanIn_litS hS "socks-in" (by decide), hlh,
          CleanIn_litS hS "socks" (by decide), trivial, ?_⟩
  intro st hst
  cases hst

theorem httpIn_clean {S : List (List Char)}
    (hS : ∀ w ∈ S, w ∈ leakSetL) (lh : String) (lp : Int)
    (hlh : CleanIn S (escapeL lh.data)) :
    inboundClean S { tag := "http-in", listen := lh, port := lp,
                     protocol := "http", settings := .http, stream := none } := by
  refine ⟨CleanIn_litS hS "http-in" (by decide), hlh,
          CleanIn_litS hS "http" (by decide), trivial, ?_⟩
  intro st hst
  cases hst

theorem directOut_clean {S : List (List Char)}
    (hS : ∀ w ∈ S, w ∈ leakSetL) :
    outboundClean S { tag := "direct", protocol := "freedom",
                      settings := none, stream := none } := by
  refine ⟨CleanIn_litS hS "direct" (by decide),
          CleanIn_litS hS "freedom" (by decide), ?_, ?_⟩
  · intro s hs; cases hs
  · intro st hst; cases hst

theorem proxyOut_clean {S : List (List Char)}
    (hS : ∀ w ∈ S, w ∈ leakSetL) (sh : String) (sp : Int)
    (uuid sni fp pk sid : String)
    (hsh : CleanIn S (escapeL sh.data))
    (huuid : CleanIn S (escapeL uuid.data))
    (hsni : CleanIn S (escapeL sni.data))
    (hfp : CleanIn S (escapeL fp.data))
    (hpk : CleanIn S (escapeL pk.data))
    (hsid : CleanIn S (escapeL sid.data))
    (hproxy : CleanIn S (escapeL ("proxy" : String).data)) :
    outboundClean S
      { tag := "proxy", protocol := "vless",
        settings := some (.vlessClient sh sp uuid),
        stream := some
          { network := "tcp", security := "reality"
            reality := some
              { showFlag := false, dest := "", xver := 0, serverNames := [],
                privateKey := "", shortIds := [],
                serverName := sni, fingerprint := fp,
                publicKey := pk, shortId := sid }
            tls := none, ws := none } } := by
  refine ⟨hproxy, CleanIn_litS hS "vless" (by decide), ?_, ?_⟩
  · intro s hs
    injection hs with hs
    subst hs
    exact ⟨hsh, huuid⟩
  · intro st hst
    injection hst with hst
    subst hst
    refine ⟨CleanIn_litS hS "tcp" (by decide),
            CleanIn_litS hS "reality" (by decide), ?_, ?_, ?_⟩
    · intro r hr
      injection hr with hr
      subst hr
      refine ⟨CleanIn_empty hS, ?_, CleanIn_empty hS, ?_,
              hsni, hfp, hpk, hsid⟩
      · intro s hs; cases hs
      · intro s hs; cases hs
    · intro t ht; cases ht
    · intro w hw; cases hw

/-- `BuildClientJSON` propagates cleanliness of the config's string fields to
every string field of the document (the fixed `proxy` tag is covered by the
extra hypothesis, which fails for the full scan set but holds for the scan
set without `proxy`). -/
theorem clientBuild_fullClean {S : List (List Char)}
    (hS : ∀ w ∈ S, w ∈ leakSetL) (cfg : ClientConfig) (conf : xrayFullConfig)
    (hserver : CleanIn S (escapeL cfg.server.data))
    (huuid : CleanIn S (escapeL cfg.uuid.data))
    (hsni : CleanIn S (escapeL cfg.sni.data))
    (hfp : CleanIn S (escapeL cfg.fingerprint.data))
    (hpk : CleanIn S (escapeL cfg.publicKey.data))
    (hsid : CleanIn S (escapeL cfg.shortID.data))
    (hll : CleanIn S (escapeL cfg.localListen.data))
    (hhl : CleanIn S (escapeL cfg.httpListen.data))
    (hlog : CleanIn S (escapeL cfg.logLevel.data))
    (hproxy : CleanIn S (escapeL ("proxy" : String).data))
    (h : BuildClientJSON (some cfg) = .ok conf) :
    fullClean S conf := by
  simp only [BuildClientJSON] at h
  cases hs : splitHostPort cfg.localListen with
  | error e => rw [hs] at h; cases h
  | ok hp =>
    obtain ⟨lh, lp⟩ := hp
    simp only [hs] at h
    rcases hsa : parseServerAddr cfg.server with ⟨sh, sp⟩
    simp only [hsa] at h
    have hshc : CleanIn S (escapeL sh.data) :=
      parseServerAddr_host_clean _ _ _ hsa hserver
    have hfpc : CleanIn S (escapeL (if cfg.fingerprint = "" then "chrome"
        else cfg.fingerprint).data) := by
      split
      · exact CleanIn_litS hS "chrome" (by decide)
      · exact hfp
    have hlogc : ∀ lg : xrayLog,
        (some { loglevel := coalesce cfg.logLevel "info" } : Option xrayLog) =
          some lg → CleanIn S (escapeL lg.loglevel.data) := by
      intro lg hlg
      injection hlg with hlg
      subst hlg
      simp only [coalesce]
      split
      · exact hlog
      · exact CleanIn_litS hS "info" (by decide)
    by_cases hne : cfg.httpListen ≠ ""
    · cases hh : splitHostPort cfg.httpListen with
      | error m =>
        simp only [if_pos hne, hh] at h
        injection h with h
        subst h
        refine ⟨hlogc, ?_, ?_⟩
        · intro ib hib
          rcases List.mem_cons.mp hib with rfl | hib2
          · exact socksIn_clean hS lh lp (splitHostPort_host_clean hS _ _ _ hs hll)
          · cases hib2
        · intro o ho
          rcases List.mem_cons.mp ho with rfl | ho2
          · exact proxyOut_clean hS sh sp _ _ _ _ _ hshc huuid hsni hfpc hpk
              hsid hproxy
          · rcases List.mem_cons.mp ho2 with rfl | ho3
            · exact directOut_clean hS
            · cases ho3
      | ok q =>
        obtain ⟨qh, qp⟩ := q
        simp only [if_pos hne, hh] at h
        injection h with h
        subst h
        refine ⟨hlogc, ?_, ?_⟩
        · intro ib hib
          rcases List.mem_cons.mp hib with rfl | hib2
          · exact socksIn_clean hS lh lp (splitHostPort_host_clean hS _ _ _ hs hll)
          · rcases List.mem_cons.mp hib2 with rfl | hib3
            · exact httpIn_clean hS qh qp (splitHostPort_host_clean hS _ _ _ hh hhl)
            · cases hib3
        · intro o ho
          rcases List.mem_cons.mp ho with rfl | ho2
          · exact proxyOut_clean hS sh sp _ _ _ _ _ hshc huuid hsni hfpc hpk
              hsid hproxy
          · rcases List.mem_cons.mp ho2 with rfl | ho3
            · exact directOut_clean hS
            · cases ho3
    · simp only [if_neg hne] at h
      injection h with h
      subst h
      refine ⟨hlogc, ?_, ?_⟩
      · intro ib hib
        rcases List.mem_cons.mp hib with rfl | hib2
        · exact socksIn_clean hS lh lp (splitHostPort_host_clean hS _ _ _ hs hll)
        · cases hib2
      · intro o ho
        rcases List.mem_cons.mp ho with rfl | ho2
        · exact proxyOut_clean hS sh sp _ _ _ _ _ hshc huuid hsni hfpc hpk
            hsid hproxy
        · rcases List.mem_cons.mp ho2 with rfl | ho3
          · exact directOut_clean hS
          · cases ho3

/-- Any outbound tagged `proxy` renders with the needle `proxy` in it. -/
theorem proxy_tag_leak (o : xrayOutbound) (h : o.tag = "proxy") :
    "proxy".data <:+: lowerL (renderOutbound o) := by
  simp only [renderOutbound, h, List.append_assoc]
  rw [lowerL_append]
  refine infix_extend_left _ ?_
  rw [lowerL_append]
  refine infix_extend_right _ ?_
  decide

/-- Every successful client build renders a document whose lower-cased bytes
contain `proxy`: the primary outbound is always tagged `proxy`. -/
theorem clientProxyLeak (cfg : ClientConfig) (conf : xrayFullConfig)
    (h : BuildClientJSON (some cfg) = .ok conf) :
    "proxy".data <:+: lowerL (renderFull conf) := by
  obtain ⟨_, hout⟩ := buildClient_shape cfg conf h
  cases houts : conf.outbounds with
  | nil => rw [houts] at hout; simp at hout
  | cons o1 t =>
    cases t with
    | nil => rw [houts] at hout; simp at hout
    | cons o2 t2 =>
      cases t2 with
      | cons o3 t3 => rw [houts] at hout; simp at hout
      | nil =>
        rw [houts] at hout
        simp only [List.map_cons, List.map_nil, List.cons.injEq,
          Prod.mk.injEq] at hout
        obtain ⟨⟨htag, _⟩, _⟩ := hout
        simp only [renderFull, houts, joinRenders, List.append_assoc]
        rw [lowerL_cons]
        refine infix_extend_cons _ ?_
        rw [lowerL_append]
        refine infix_extend_left _ ?_
        rw [lowerL_append]
        refine infix_extend_left _ ?_
        rw [lowerL_append]
        refine infix_extend_left _ ?_
        rw [lowerL_append]
        refine infix_extend_left _ ?_
        rw [lowerL_append]
        refine infix_extend_right _ ?_
        exact proxy_tag_leak o1 htag

/-- Cleanliness of the JSON-escaped form of every server config string that
can reach the document (`Marshal` escaping can itself create needles, e.g.
an SNI `>ntropy` renders as `\u003entropy`, so the scan must look at the
escaped bytes). -/
@[reducible]
def serverFieldsClean (cfg : Config) : Prop :=
  CleanIn leakSetL (escapeL cfg.listen.data) ∧
  CleanIn leakSetL (escapeL cfg.uuid.data) ∧
  CleanIn leakSetL (escapeL cfg.reality.sni.data) ∧
  CleanIn leakSetL (escapeL cfg.reality.privateKey.data) ∧
  (∀ s ∈ cfg.reality.shortIDs, CleanIn leakSetL (escapeL s.data)) ∧
  CleanIn leakSetL (escapeL cfg.logLevel.data) ∧
  (∀ fb ∈ cfg.fallbacks, CleanIn leakSetL (escapeL fb.protocol.data) ∧
    CleanIn leakSetL (escapeL fb.listen.data) ∧
    CleanIn leakSetL (escapeL fb.path.data))

/-- Cleanliness of the JSON-escaped form of every client config string that
can reach the document, against the scan set without `proxy`. -/
@[reducible]
def clientFieldsClean (cfg : ClientConfig) : Prop :=
  CleanIn clientLeakSetL (escapeL cfg.server.data) ∧
  CleanIn clientLeakSetL (escapeL cfg.uuid.data) ∧
  CleanIn clientLeakSetL (escapeL cfg.sni.data) ∧
  CleanIn clientLeakSetL (escapeL cfg.fingerprint.data) ∧
  CleanIn clientLeakSetL (escapeL cfg.publicKey.data) ∧
  CleanIn clientLeakSetL (escapeL cfg.shortID.data) ∧
  CleanIn clientLeakSetL (escapeL cfg.localListen.data) ∧
  CleanIn clientLeakSetL (escapeL cfg.httpListen.data) ∧
  CleanIn clientLeakSetL (escapeL cfg.logLevel.data)

/-- A fully innocuous, validated client config. -/
def cfgC2client : ClientConfig :=
  { server := "203.0.113.9:8443", uuid := "u1", sni := "www.bing.com",
    fingerprint := "chrome", publicKey := "pk1", shortID := "ab",
    localListen := "127.0.0.1:1080", httpListen := "",
    logLevel := "warning", sportsMode := false, apiListen := "127.0.0.1:9876" }

/-- The document compiled from `cfgC2client`. -/
def confC2cex : xrayFullConfig :=
  (BuildClientJSON (some cfgC2client)).toOption.getD ⟨none, [], []⟩

/-- A validated server config whose SNI `>ntropy` is itself needle-free but
whose `Marshal` escaping (`>` becomes ` u003e` with a backslash) creates the
needle `entropy` in the output bytes. -/
def cfgC2esc : Config :=
  { listen := "0.0.0.0:8443", protocol := "vless", uuid := "u1",
    reality := { sni := ">ntropy", privateKey := "k1", publicKey := "",
                 shortIDs := [] },
    fingerprint := "chrome", fallbacks := [], logLevel := "",
    sportsMode := false, rotation := rotationZero, payment := paymentZero }

/-- The document compiled from `cfgC2esc`. -/
def confC2esc : xrayFullConfig :=
  (BuildServerJSON (some cfgC2esc)).toOption.getD ⟨none, [], []⟩

set_option maxRecDepth 10000 in
/-- C2 counterexample, twice over.  (1) A validated client config with fully
innocuous fields compiles to a document whose lower-cased bytes contain the
identifying substring `proxy` (the hardwired primary outbound tag).  (2) A
validated server config whose fields are all needle-free (SNI `>ntropy`)
compiles to a document whose bytes contain the needle `entropy`, because
`json.Marshal` escapes `>` to a six-character sequence ending in `e` directly
before `ntropy`.  So the claimed scan fails on every client output and even
on server outputs with needle-free fields. -/
theorem C2_client_output_contains_proxy :
    (validateClientConfig cfgC2client = .ok cfgC2client ∧
     BuildClientJSON (some cfgC2client) = .ok confC2cex ∧
     "proxy".data ∈ leakSetL ∧
     ¬ CleanIn leakSetL (renderFull confC2cex)) ∧
    (CleanIn leakSetL (">ntropy" : String).data ∧
     validateConfig cfgC2esc = .ok cfgC2esc ∧
     BuildServerJSON (some cfgC2esc) = .ok confC2esc ∧
     "entropy".data ∈ leakSetL ∧
     ¬ CleanIn leakSetL (renderFull confC2esc)) := by
  refine ⟨⟨by decide, by decide, by decide, ?_⟩,
          by decide, by decide, by decide, by decide, ?_⟩
  · intro hcl
    exact hcl "proxy".data (by decide) (by decide)
  · intro hcl
    exact hcl "entropy".data (by decide) (by decide)

/-- An innocuous server config with one ws fallback. -/
def cfgC2srv : Config :=
  { listen := "0.0.0.0:8443", protocol := "vless", uuid := "u1",
    reality := { sni := "www.bing.com", privateKey := "k1", publicKey := "",
                 shortIDs := ["ab"] },
    fingerprint := "chrome",
    fallbacks := [{ protocol := "trojan", listen := "127.0.0.1:8080",
                    transport := "ws", path := "/cdn" }],
    logLevel := "warning", sportsMode := false,
    rotation := rotationZero, payment := paymentZero }

/-- The document compiled from `cfgC2srv`. -/
def confC2srv : xrayFullConfig :=
  (BuildServerJSON (some cfgC2srv)).toOption.getD ⟨none, [], []⟩

/-- C2 (amended): the hygiene scan holds with the qualifications the code
imposes.  (1) Server documents: when the `json.Marshal`-escaped form of every
config-supplied string is free of the identifying substrings, the rendered
`BuildServerJSON` output contains none of them (case-insensitively) — the
builder's own literals are leak-free.  The escaped form is the right
hypothesis: escaping can create needles from needle-free fields (SNI
`>ntropy` renders with the needle `entropy`), see the counterexample.
(2) Client documents always embed the substring `proxy`: the primary outbound
is hardwired with tag `proxy`, so the claimed scan fails on every client
output.  (3) Apart from that tag, client documents are leak-free: with clean
escaped fields the output contains none of the remaining substrings
`entropy`, `tunnel`, `vpn`, `shadowsocks`, `v2ray`, `xray`. -/
theorem C2_output_hygiene :
    (∀ (cfg : Config) (conf : xrayFullConfig),
        serverFieldsClean cfg → BuildServerJSON (some cfg) = .ok conf →
        CleanIn leakSetL (renderFull conf)) ∧
    (∀ (cfg : ClientConfig) (conf : xrayFullConfig),
        BuildClientJSON (some cfg) = .ok conf →
        "proxy".data <:+: lowerL (renderFull conf)) ∧
    (∀ (cfg : ClientConfig) (conf : xrayFullConfig),
        clientFieldsClean cfg → BuildClientJSON (some cfg) = .ok conf →
        CleanIn clientLeakSetL (renderFull conf)) := by
  refine ⟨?_, ?_, ?_⟩
  · intro cfg conf hc h
    obtain ⟨h1, h2, h3, h4, h5, h6, h7⟩ := hc
    exact CleanIn_renderFull leakSetL_sub conf
      (serverBuild_fullClean leakSetL_sub cfg conf h1 h2 h3 h4 h5 h6 h7 h)
  · intro cfg conf h
    exact clientProxyLeak cfg conf h
  · intro cfg conf hc h
    obtain ⟨h1, h2, h3, h4, h5, h6, h7, h8, h9⟩ := hc
    exact CleanIn_renderFull clientLeakSetL_sub conf
      (clientBuild_fullClean clientLeakSetL_sub cfg conf h1 h2 h3 h4 h5 h6
        h7 h8 h9 (by decide) h)

set_option maxRecDepth 10000 in
/-- C2 witness: concrete configs with clean escaped fields; the server
document passes the full scan, the client document contains `proxy` yet
passes the scan over the remaining substrings. -/
theorem C2_output_hygiene_witness :
    serverFieldsClean cfgC2srv ∧
    BuildServerJSON (some cfgC2srv) = .ok confC2srv ∧
    CleanIn leakSetL (renderFull confC2srv) ∧
    clientFieldsClean cfgC2client ∧
    BuildClientJSON (some cfgC2client) = .ok confC2cex ∧
    "proxy".data <:+: lowerL (renderFull confC2cex) ∧
    CleanIn clientLeakSetL (renderFull confC2cex) := by
  refine ⟨by decide, by decide,
    C2_output_hygiene.1 cfgC2srv confC2srv (by decide) (by decide),
    by decide, by decide,
    C2_output_hygiene.2.1 cfgC2client confC2cex (by decide),
    C2_output_hygiene.2.2 cfgC2client confC2cex (by decide) (by decide)⟩

end EntropyTunnel
